import Mathlib

set_option maxRecDepth 100000

/-!
Verification of the bulk e-mail dispatch engine in
`src/app/api/send-emails/route.ts` (second, authoritative revision of the
route file, lines 202-609).

The TypeScript source is shallowly embedded: strings are Lean `String`s
(scanned as `List Char` where the source uses regular expressions),
JavaScript `undefined`-able values are `Option`s, and JavaScript truthiness
is made explicit (`0`, `""` and `undefined` are falsy).  External effects
(the SMTP transport, timers) are abstracted as explicit parameters: a send
attempt is an oracle `Nat → AttemptOutcome` giving, per attempt index, the
outcome of the `try` block of `sendOneWithRetry`.
-/

namespace MailManager

/-! ## Generic JavaScript-semantics helpers -/

/-- ASCII lower-casing of a character, the effect of JavaScript
`String.prototype.toLowerCase` / case-insensitive regex matching on the
ASCII strings this code handles. -/
def lowerC (c : Char) : Char :=
  if 65 ≤ c.toNat ∧ c.toNat ≤ 90 then Char.ofNat (c.toNat + 32) else c

/-- ASCII upper-casing of a character (JavaScript `toUpperCase` on ASCII). -/
def upperC (c : Char) : Char :=
  if 97 ≤ c.toNat ∧ c.toNat ≤ 122 then Char.ofNat (c.toNat - 32) else c

/-- JavaScript `String.prototype.toLowerCase` restricted to ASCII. -/
def jsToLower (s : String) : String := String.mk (s.toList.map lowerC)

/-- JavaScript `\s` on the characters this code handles. -/
def isWsJs (c : Char) : Bool :=
  c = ' ' ∨ c = '\t' ∨ c = '\n' ∨ c = '\r' ∨ c = '\x0b' ∨ c = '\x0c'

/-- JavaScript `String.prototype.trim`: strips leading and trailing
whitespace. -/
def jsTrim (s : String) : String :=
  String.mk (((s.toList.dropWhile isWsJs).reverse.dropWhile isWsJs).reverse)

/-- `s.split(sep)` for a single-character separator (all separator uses in
this code are single characters or handled by `replaceFirstL`):
JavaScript split semantics, so the empty string yields `[[]]` and
adjacent separators yield empty fragments. -/
def splitChar (sep : Char) (cs : List Char) : List (List Char) :=
  cs.foldr (fun c acc =>
    match acc with
    | [] => [[c]]
    | h :: t => if c = sep then [] :: h :: t else (c :: h) :: t) [[]]

/-- `Array.prototype.join` / `String.intercalate`. -/
def joinWith (sep : String) : List String → String
  | [] => ""
  | [p] => p
  | p :: ps => p ++ sep ++ joinWith sep ps

/-- `s.startsWith(pre)`. -/
def jsStartsWith (s pre : String) : Bool := pre.toList.isPrefixOf s.toList

/-- Replace the first occurrence of `pat` (JavaScript
`s.replace(string, rep)` replaces only the first). -/
def replaceFirstL (pat rep : List Char) : List Char → List Char
  | [] => []
  | c :: cs =>
    if pat.isPrefixOf (c :: cs) then rep ++ (c :: cs).drop pat.length
    else c :: replaceFirstL pat rep cs

/-- JavaScript `hay.includes(needle)`: substring test. -/
def jsIncludes (hay needle : String) : Bool :=
  decide (needle.toList <:+: hay.toList)

/-- JavaScript truthiness of an optional numeric value (`undefined` and `0`
are falsy). -/
def numTruthy : Option Nat → Bool
  | none => false
  | some n => n ≠ 0

/-- JavaScript truthiness of an optional string (`undefined` and `""` are
falsy). -/
def strTruthy : Option String → Bool
  | none => false
  | some s => s ≠ ""

/-! ## Retry Policy: `isTransientSmtpError` (route.ts 215-231) -/

/-- The fixed transient markers of `isTransientSmtpError`, lower-case as in
the source. -/
def transientMarkers : List String :=
  ["4.7.0", "4.7.1", "try again later", "temporarily unavailable",
   "resources temporarily unavailable", "rate limit", "quota exceeded",
   "greylist", "timeout", "temporary"]

/-- `isTransientSmtpError(code?, response?)` (route.ts 215-231).
`code` is the provider response code, `response` the provider response
text; both may be `undefined`.  Mirrors the source line by line:
the `!code && !response` guard, the 4xx test guarded by the truthiness of
`code`, then the lower-cased marker search. -/
def isTransientSmtpError (code : Option Nat) (response : Option String) : Bool :=
  if ¬ numTruthy code ∧ ¬ strTruthy response then false
  else
    let text := jsToLower (response.getD "")
    if numTruthy code ∧ 400 ≤ code.getD 0 ∧ code.getD 0 < 500 then true
    else transientMarkers.any fun m => jsIncludes text m

/-- Spec-side predicate: the failure carries a response code in the 4xx
range. -/
def codeIn4xx : Option Nat → Bool
  | none => false
  | some c => decide (400 ≤ c ∧ c < 500)

/-- Spec-side predicate: the (lower-cased) response text contains one of
the fixed transient markers. -/
def responseHasMarker (response : Option String) : Bool :=
  transientMarkers.any fun m => jsIncludes (jsToLower (response.getD "")) m

/-- `dropWhile` never lengthens a list. -/
def dropWhile_len_le (p : Char → Bool) (l : List Char) :
    (l.dropWhile p).length ≤ l.length :=
  (List.dropWhile_suffix p).sublist.length_le

/-- Match a fixed lower-case pattern case-insensitively against the head of
the input, returning the consumed characters (original case) and the rest.
The building block for the case-insensitive regex literals below. -/
def matchCI : List Char → List Char → Option (List Char × List Char)
  | [], cs => some ([], cs)
  | _ :: _, [] => none
  | p :: ps, c :: cs =>
    if lowerC c = p then (matchCI ps cs).map fun pr => (c :: pr.1, pr.2)
    else none

/-- Soundness of `matchCI`: on success the input splits as consumed ++
rest and the consumed part lower-cases to the pattern.  (Stated as a
`def` so the scanning definitions below may use it in their termination
arguments.) -/
def matchCI_spec : ∀ (pat cs a r : List Char),
    matchCI pat cs = some (a, r) → cs = a ++ r ∧ a.map lowerC = pat := by
  intro pat
  induction pat with
  | nil =>
    intro cs a r h
    simp [matchCI] at h
    simp [h.1, h.2]
  | cons p ps ih =>
    intro cs a r h
    cases cs with
    | nil => simp [matchCI] at h
    | cons c cs' =>
      simp only [matchCI] at h
      split at h
      · rename_i hl
        cases hm : matchCI ps cs' with
        | none => rw [hm] at h; exact Option.noConfusion h
        | some pr =>
          rw [hm] at h
          simp only [Option.map_some'] at h
          cases h
          obtain ⟨h1, h2⟩ := ih cs' pr.1 pr.2 (by rw [hm])
          simp [h1, h2, hl]
      · exact Option.noConfusion h

/-! ## Data model (route.ts 208-213, 485-487) -/

/-- `sender: { name: string; email: string }` of `EmailPayload`. -/
structure Sender where
  name : String
  email : String
deriving DecidableEq, Repr

/-- The inbound `EmailPayload` (route.ts 208-213).  The request body is
assumed well-typed (the `as EmailPayload` cast); `undefined` fields of a
malformed body are out of scope. -/
structure EmailPayload where
  emails : List String
  subject : String
  htmlContent : String
  sender : Sender
deriving DecidableEq, Repr

/-- The per-recipient `Result` union (route.ts 485-487).  `success`
carries the optional `responseId`; `failed` carries `error` and the
optional diagnostic fields `code` / `response` / `responseCode`. -/
inductive SendResult where
  | success (email : String) (responseId : Option String)
  | failed (email : String) (error : String) (code : Option String)
      (response : Option String) (responseCode : Option Nat)
deriving DecidableEq, Repr

/-- The recipient an outcome belongs to (`result.email`). -/
def SendResult.email : SendResult → String
  | .success e _ => e
  | .failed e _ _ _ _ => e

/-- `result.status === 'success'`. -/
def SendResult.isSuccess : SendResult → Bool
  | .success _ _ => true
  | .failed _ _ _ _ _ => false

/-- The `summary` object of the final response (route.ts 606). -/
structure Summary where
  total : Nat
  success : Nat
  failed : Nat
deriving DecidableEq, Repr

/-! ## Batch / retry constants (route.ts 310-314) -/

def BATCH_SIZE : Nat := 40
def CONCURRENCY : Nat := 5
def BATCH_DELAY_MS : Nat := 3000
def MAX_RETRIES : Nat := 3
def BASE_BACKOFF_MS : Nat := 2000

/-! ## `sendOneWithRetry` (route.ts 489-566)

The body of the `try` block (render the content, build the mail options,
`await transporter.sendMail`) either returns an `info` object or throws.
It is abstracted as an oracle from the attempt index to an
`AttemptOutcome`; a thrown error carries the JavaScript error fields the
`catch` block reads (`message`, `code`, `response`, `responseCode`), any
of which may be `undefined`. -/

/-- Outcome of one iteration of the `try` block of `sendOneWithRetry`. -/
inductive AttemptOutcome where
  | ok (messageId : Option String)
  | threw (message : Option String) (code : Option String)
      (response : Option String) (responseCode : Option Nat)
deriving DecidableEq, Repr

/-- `outcome` is a throw (the `catch` path is taken). -/
def AttemptOutcome.isThrew : AttemptOutcome → Bool
  | .ok _ => false
  | .threw _ _ _ _ => true

/-- The `while (attempt <= MAX_RETRIES)` loop of `sendOneWithRetry`
(route.ts 491-564), started at a given `attempt`.  Returns the recorded
`Result` together with the list of backoff delays
(`BASE_BACKOFF_MS * Math.pow(2, attempt)`, route.ts 547) awaited before
each re-attempt, in order.  The final `return` after the loop
(route.ts 565) is the `else` branch. -/
def sendAttemptLoop (oracle : Nat → AttemptOutcome) (rcpt : String)
    (attempt : Nat) (delays : List Nat) : SendResult × List Nat :=
  if attempt ≤ MAX_RETRIES then
    match oracle attempt with
    | .ok mid => (.success rcpt mid, delays)
    | .threw msg code resp rcode =>
      if isTransientSmtpError rcode resp ∧ attempt < MAX_RETRIES then
        sendAttemptLoop oracle rcpt (attempt + 1)
          (delays ++ [BASE_BACKOFF_MS * 2 ^ attempt])
      else
        (.failed rcpt (msg.getD "Unknown SMTP error") code resp rcode, delays)
  else
    (.failed rcpt "Exceeded retry attempts" none none none, delays)
termination_by MAX_RETRIES + 1 - attempt
decreasing_by simp only [MAX_RETRIES] at *; omega

/-- `sendOneWithRetry(rcpt)`: the loop started at `attempt = 0`. -/
def sendOneWithRetry (oracle : Nat → AttemptOutcome) (rcpt : String) :
    SendResult × List Nat :=
  sendAttemptLoop oracle rcpt 0 []

/-! ## The batch loop (route.ts 569-594)

`runBatch` runs `CONCURRENCY` workers that pull recipients off a shared
queue; the JavaScript event loop makes each `queue.shift()` claim exactly
one recipient, and each worker pushes exactly one `Result` per claimed
recipient.  The embedding serialises the pool: outcomes are listed in
queue order.  The claims proved below (lengths, counts, one outcome per
recipient) are invariant under the completion-order permutation the real
pool may introduce (spec §5 requires outcome order to be treated as a
set). -/

/-- One batch: one `Result` per recipient of the batch. -/
def runBatch (oracle : String → Nat → AttemptOutcome) (batch : List String) :
    List SendResult :=
  batch.map fun rcpt => (sendOneWithRetry (oracle rcpt) rcpt).1

/-- `emails.slice(i, i + BATCH_SIZE)` partitioning of the `for` loop
(route.ts 588-594). -/
def batchesOf (emails : List String) : List (List String) :=
  if emails.isEmpty then []
  else emails.take BATCH_SIZE :: batchesOf (emails.drop BATCH_SIZE)
termination_by emails.length
decreasing_by
  cases emails with
  | nil => simp_all
  | cons a l => simp [BATCH_SIZE]; omega

/-- All batches, in order, flattened: the `results` array after the batch
loop finishes. -/
def processAll (oracle : String → Nat → AttemptOutcome)
    (emails : List String) : List SendResult :=
  ((batchesOf emails).map (runBatch oracle)).flatten

/-- `successCount` after the loop. -/
def countSuccess (results : List SendResult) : Nat :=
  results.countP (·.isSuccess)

/-- `failCount` after the loop. -/
def countFail (results : List SendResult) : Nat :=
  results.countP (fun r => !r.isSuccess)

/-! ## The `POST` handler (route.ts 233-609)

Environment configuration is injected; the SMTP pre-flight
`transporter.verify()` (route.ts 284-308) is abstracted as a boolean. -/

/-- The environment variables the handler reads. `smtpPort` stands for the
already-`Number`-converted `SMTP_PORT`. -/
structure Env where
  smtpUser : Option String
  smtpPass : Option String
  smtpHost : Option String
  smtpPort : Option Nat
deriving DecidableEq, Repr

/-- The four `NextResponse.json` shapes the handler can produce:
a 400 validation error (route.ts 236-239), the 500 missing-configuration
error (route.ts 245), the 500 verification failure (route.ts 293-307,
carrying the thrown error's message), and the final 200 summary response
(route.ts 603-608). -/
inductive PostResponse where
  | badRequest (message : String)
  | smtpNotConfigured (message : String)
  | verifyFailed (error : String) (host : String) (port : Nat)
      (secure : Bool) (user : String)
  | ok (message : String) (summary : Summary) (results : List SendResult)
deriving DecidableEq, Repr

/-- The HTTP status each response is sent with. -/
def PostResponse.status : PostResponse → Nat
  | .badRequest _ => 400
  | .smtpNotConfigured _ => 500
  | .verifyFailed _ _ _ _ _ => 500
  | .ok _ _ _ => 200

/-- JavaScript `a || b` for an optional string (empty string is falsy). -/
def jsOrStr (a : Option String) (b : String) : String :=
  match a with
  | some s => if s = "" then b else s
  | none => b

/-- JavaScript `a || b` for an optional number (`0` is falsy). -/
def jsOrNat (a : Option Nat) (b : Nat) : Nat :=
  match a with
  | some n => if n = 0 then b else n
  | none => b

/-- The `POST` handler (route.ts 233-609): validation, configuration check,
pre-flight verification, then the batch loop and the summary response.
`verify` is the outcome of `transporter.verify()`: `none` for success,
`some e` when it threw with message `e`.  `oracle rcpt attempt` is the
outcome of the `try` body of `sendOneWithRetry` for that recipient and
attempt. -/
def POST (env : Env) (verify : Option String)
    (oracle : String → Nat → AttemptOutcome) (p : EmailPayload) :
    PostResponse :=
  if p.emails.isEmpty then .badRequest "No email addresses provided"
  else if jsTrim p.subject = "" then .badRequest "Email subject is required"
  else if jsTrim p.htmlContent = "" then .badRequest "Email content is required"
  else if ¬ strTruthy (some p.sender.email) ∨ ¬ strTruthy (some p.sender.name) then
    .badRequest "Sender information is required"
  else if ¬ strTruthy env.smtpUser ∨ ¬ strTruthy env.smtpPass then
    .smtpNotConfigured "SMTP not configured (EMAIL_USER/EMAIL_PASS missing)"
  else
    let authUser := env.smtpUser.getD ""
    let host := jsOrStr env.smtpHost "mail.privateemail.com"
    let port := jsOrNat env.smtpPort 465
    match verify with
    | some e =>
      .verifyFailed e host port (port = 465)
        (if authUser ≠ "" then String.mk (authUser.toList.take 3) ++ "..."
         else "undefined")
    | none =>
      let results := processAll oracle p.emails
      let n := p.emails.length
      .ok (s!"Processed {n} email(s)")
        ⟨n, countSuccess results, countFail results⟩ results

/-! ## The response JSON (route.ts 603-608)

A small JSON value type makes the exact key set of the response object
literal checkable. -/

inductive JVal where
  | jb (v : Bool)
  | jn (v : Nat)
  | js (v : String)
  | jarr (vs : List JVal)
  | jobj (fields : List (String × JVal))

/-- The keys of a JSON object (in literal order). -/
def JVal.keys : JVal → List String
  | .jobj fields => fields.map Prod.fst
  | _ => []

/-- JSON of the `summary` literal `{ total, success, failed }`. -/
def summaryJson (s : Summary) : JVal :=
  .jobj [("total", .jn s.total), ("success", .jn s.success),
         ("failed", .jn s.failed)]

/-- JSON of one element of `results`.  A JavaScript object field holding
`undefined` is absent from the serialised JSON. -/
def resultJson : SendResult → JVal
  | .success e rid =>
    .jobj ([("email", .js e), ("status", .js "success")] ++
      (match rid with | some r => [("responseId", JVal.js r)] | none => []))
  | .failed e err code resp rcode =>
    .jobj ([("email", .js e), ("status", .js "failed"), ("error", .js err)] ++
      (match code with | some c => [("code", JVal.js c)] | none => []) ++
      (match resp with | some r => [("response", JVal.js r)] | none => []) ++
      (match rcode with | some rc => [("responseCode", JVal.jn rc)] | none => []))

/-- The serialised body of each `NextResponse.json` call of the handler.
The success branch mirrors the object literal of route.ts 603-608: the
`warnings` computation (route.ts 596-601) is commented out in the source
and no `warnings` key is produced. -/
def responseJson : PostResponse → JVal
  | .badRequest m => .jobj [("success", .jb false), ("message", .js m)]
  | .smtpNotConfigured m => .jobj [("success", .jb false), ("message", .js m)]
  | .verifyFailed e host port secure user =>
    .jobj [("success", .jb false), ("message", .js "SMTP verification failed"),
           ("error", .js e),
           ("details", .jobj [("host", .js host), ("port", .jn port),
             ("secure", .jb secure), ("user", .js user),
             ("authMethod", .js "PLAIN")])]
  | .ok m s results =>
    .jobj [("success", .jb true), ("message", .js m),
           ("summary", summaryJson s),
           ("results", .jarr (results.map resultJson))]

/-! ## `nameFromEmail` (route.ts 325-335) and `personalizeContent`
(route.ts 337-344) -/

/-- Character class `[a-zA-Z0-9_.-]` of the first `replace`. -/
def allowedNameChar (c : Char) : Bool :=
  ('a' ≤ c ∧ c ≤ 'z') ∨ ('A' ≤ c ∧ c ≤ 'Z') ∨ ('0' ≤ c ∧ c ≤ '9') ∨
    c = '_' ∨ c = '.' ∨ c = '-'

/-- Character class `[_.-]` of the second `replace`. -/
def sepChar (c : Char) : Bool := c = '_' ∨ c = '.' ∨ c = '-'

/-- `.replace(/[_.-]+/g, ' ')`: each maximal run of separator characters
becomes a single space.  Structural recursion on a fuel that the wrapper
instantiates with the input length (each step consumes at least one
character, so the fuel never runs out). -/
def collapseSepsF : Nat → List Char → List Char
  | 0, cs => cs
  | _ + 1, [] => []
  | fuel + 1, c :: cs =>
    if sepChar c then ' ' :: collapseSepsF fuel (cs.dropWhile sepChar)
    else c :: collapseSepsF fuel cs

def collapseSeps (cs : List Char) : List Char := collapseSepsF cs.length cs

/-- `s.split(/\s+/)` applied to an already-trimmed string whose only
whitespace characters are plain spaces (which is the case here: the first
`replace` has turned every non-`[a-zA-Z0-9_.-]` character into a space).
JavaScript yields `[""]` on the empty string and otherwise the non-empty
space-separated fragments. -/
def jsSplitWs (s : String) : List String :=
  if s = "" then [""]
  else ((splitChar ' ' s.toList).map String.mk).filter (· ≠ "")

/-- `p.charAt(0).toUpperCase() + p.slice(1).toLowerCase()` (ASCII). -/
def titleCaseJs (p : String) : String :=
  match p.toList with
  | [] => ""
  | c :: rest => String.mk (upperC c :: rest.map lowerC)

/-- `nameFromEmail(email)` (route.ts 325-335): local part before `@`, drop
`+suffix`, replace disallowed characters by spaces, collapse `[_.-]+` runs
to spaces, trim, split on whitespace, title-case and re-join.  Note that
the JavaScript `split` of the empty string yields `[""]`, so
`parts.length` is never `0`. -/
def nameFromEmail (email : String) : String :=
  let locPart := (splitChar '@' email.toList).headD []
  let withoutPlus := (splitChar '+' locPart).headD []
  let cleaned := jsTrim (String.mk (collapseSeps
    (withoutPlus.map fun c => if allowedNameChar c then c else ' ')))
  let parts := jsSplitWs cleaned
  if parts.length = 0 then "there"
  else joinWith " " (parts.map titleCaseJs)

/-- One placeholder pattern `\{\{\s*tok\s*\}\}` (case-insensitive) matched
at the head of the input; returns the rest on success. -/
def tryPlaceholder (tok : List Char) (cs : List Char) : Option (List Char) :=
  match cs with
  | '{' :: '{' :: r =>
    match matchCI tok (r.dropWhile isWsJs) with
    | none => none
    | some pr =>
      let r3 := pr.2.dropWhile isWsJs
      if r3.take 2 = ['}', '}'] then some (r3.drop 2) else none
  | _ => none

/-- The rest returned by `tryPlaceholder` is strictly shorter than the
input (at least the braces are consumed). -/
def tryPlaceholder_length : ∀ (tok cs rest : List Char),
    tryPlaceholder tok cs = some rest → rest.length < cs.length := by
  intro tok cs rest h
  unfold tryPlaceholder at h
  split at h
  · rename_i r
    cases hm : matchCI tok (r.dropWhile isWsJs) with
    | none => rw [hm] at h; exact Option.noConfusion h
    | some pr =>
      rw [hm] at h
      simp only at h
      split at h
      · cases h
        have hspec := matchCI_spec tok (r.dropWhile isWsJs) pr.1 pr.2 hm
        have h1 : (r.dropWhile isWsJs).length ≤ r.length :=
          dropWhile_len_le _ _
        have h2 : (r.dropWhile isWsJs).length = pr.1.length + pr.2.length := by
          rw [hspec.1]; simp
        have h3 : (pr.2.dropWhile isWsJs).length ≤ pr.2.length :=
          dropWhile_len_le _ _
        have h4 : ((pr.2.dropWhile isWsJs).drop 2).length =
            (pr.2.dropWhile isWsJs).length - 2 := List.length_drop _ _
        simp only [List.length_cons]
        omega
      · exact Option.noConfusion h
  · exact Option.noConfusion h

/-- Global replacement of one placeholder pattern by `name` (structural
on a fuel instantiated with the input length; `tryPlaceholder` consumes
at least one character on success). -/
def replacePlaceholderF (tok : List Char) (name : List Char) :
    Nat → List Char → List Char
  | 0, cs => cs
  | _ + 1, [] => []
  | fuel + 1, c :: cs =>
    match tryPlaceholder tok (c :: cs) with
    | some rest => name ++ replacePlaceholderF tok name fuel rest
    | none => c :: replacePlaceholderF tok name fuel cs

def replacePlaceholder (tok : List Char) (name : List Char)
    (cs : List Char) : List Char :=
  replacePlaceholderF tok name cs.length cs

/-- `personalizeContent(content, email)` (route.ts 337-344): the four
case-insensitive placeholder replacements, in source order. -/
def personalizeContent (content : String) (email : String) : String :=
  let name := (nameFromEmail email).toList
  let step1 := replacePlaceholder "receipetien".toList name content.toList
  let step2 := replacePlaceholder "recipient".toList name step1
  let step3 := replacePlaceholder "recipientname".toList name step2
  let step4 := replacePlaceholder "name".toList name step3
  String.mk step4

/-! ## The WHATWG `URL` constructor

Modelled from the documented WHATWG behaviour of `new URL` restricted to
the absolute `http(s)` URLs this code constructs and parses: scheme,
host, path, query and fragment are split syntactically, an absolute
special-scheme URL with an empty host fails to parse (the constructor
throws `Invalid URL` — also when a base is supplied, since an input
carrying its own scheme ignores the base), an empty path serialises as
`/`, and the `hash` setter prefixes `#`.  Percent-encoding, host
normalisation and non-`http(s)` schemes are outside the fragment of
behaviour the theorems below evaluate. -/

structure JsURL where
  scheme : String
  host : String
  path : String
  query : String
  /-- `""` when there is no fragment, otherwise `"#…"` (what the `hash`
  getter returns). -/
  hash : String
deriving DecidableEq, Repr

/-- Characters ending the host component. -/
def hostEnd (c : Char) : Bool := c = '/' ∨ c = '?' ∨ c = '#'

/-- Characters ending the path component. -/
def pathEnd (c : Char) : Bool := c = '?' ∨ c = '#'

/-- `new URL(s)` for an absolute `http(s)` input: `none` models a thrown
`Invalid URL`. -/
def jsNewURL (s : String) : Option JsURL :=
  let cs := s.toList
  let parsed : Option (String × List Char) :=
    if cs.take 7 = "http://".toList then some ("http", cs.drop 7)
    else if cs.take 8 = "https://".toList then some ("https", cs.drop 8)
    else none
  match parsed with
  | none => none
  | some (scheme, r) =>
    let host := r.takeWhile fun c => ¬ hostEnd c
    if host.isEmpty then none
    else
      let r1 := r.dropWhile fun c => ¬ hostEnd c
      let path := r1.takeWhile fun c => ¬ pathEnd c
      let r2 := r1.dropWhile fun c => ¬ pathEnd c
      let query := r2.takeWhile fun c => c ≠ '#'
      let hash := r2.dropWhile fun c => c ≠ '#'
      some ⟨scheme, String.mk host, String.mk path, String.mk query,
        String.mk hash⟩

/-- `u.toString()`: an empty path of a special-scheme URL serialises as
`/`. -/
def urlToString (u : JsURL) : String :=
  u.scheme ++ "://" ++ u.host ++ (if u.path = "" then "/" else u.path) ++
    u.query ++ u.hash

/-- The `hash` setter `u.hash = v`: strips one leading `#` of the assigned
value and stores `#` followed by it. -/
def setHash (u : JsURL) (v : String) : JsURL :=
  { u with hash := "#" ++
      (if jsStartsWith v "#" then String.mk (v.toList.drop 1) else v) }

/-- `new URL(s, base)`: an input with its own `http(s)` scheme is parsed
absolutely (the base is ignored, and a missing host still fails);
otherwise the input is resolved as a path relative to the base's origin.
Only the absolute branch is exercised by the theorems below. -/
def jsNewURLWithBase (s base : String) : Option JsURL :=
  let cs := s.toList
  if cs.take 7 = "http://".toList ∨ cs.take 8 = "https://".toList then
    jsNewURL s
  else
    match jsNewURL base with
    | none => none
    | some b =>
      let woHash := cs.takeWhile fun c => c ≠ '#'
      let hash := cs.dropWhile fun c => c ≠ '#'
      let path := woHash.takeWhile fun c => c ≠ '?'
      let query := woHash.dropWhile fun c => c ≠ '?'
      some ⟨b.scheme, b.host,
        (if path.take 1 = ['/'] then "" else "/") ++ String.mk path,
        String.mk query, String.mk hash⟩

/-- `encodeURIComponent` on ASCII input: unreserved characters
(`A-Z a-z 0-9 - _ . ! ~ * ' ( )`) are kept, anything else becomes a
percent-escaped byte. -/
def encUnreserved (c : Char) : Bool :=
  ('A' ≤ c ∧ c ≤ 'Z') ∨ ('a' ≤ c ∧ c ≤ 'z') ∨ ('0' ≤ c ∧ c ≤ '9') ∨
    c = '-' ∨ c = '_' ∨ c = '.' ∨ c = '!' ∨ c = '~' ∨ c = '*' ∨
    c = '\'' ∨ c = '(' ∨ c = ')'

/-- One upper-case hexadecimal digit. -/
def hexDigit (n : Nat) : Char :=
  if n < 10 then Char.ofNat (48 + n) else Char.ofNat (55 + n)

/-- `encodeURIComponent(s)` (ASCII). -/
def encodeURIComponent (s : String) : String :=
  String.mk (s.toList.flatMap fun c =>
    if encUnreserved c then [c]
    else ['%', hexDigit (c.toNat / 16 % 16), hexDigit (c.toNat % 16)])

/-- JavaScript `s.replace(pat, rep)` with a plain-string pattern: replaces
the first occurrence only. -/
def jsReplaceFirst (s pat rep : String) : String :=
  String.mk (replaceFirstL pat.toList rep.toList s.toList)

/-! ## `formatHtmlContent` (route.ts 351-478)

The content pipeline applied per recipient: full-document detection,
markdown-style link conversion, bare-URL linkification, call-to-action
buttonisation, paragraph wrapping, document shell.  A step whose
JavaScript can throw (the `new URL` calls outside any `try`) returns
`Except String`: `.error` models the exception propagating out of
`formatHtmlContent`. -/

/-- One markdown-style link `\[([^\]]+)\]\(([^)]+)\)` matched at the head
of the input.  On success returns `((text, url), k)` where `k` is the
total number of characters the match consumed (always at least 5). -/
def tryMdLink (cs : List Char) : Option ((List Char × List Char) × Nat) :=
  match cs with
  | '[' :: r =>
    let text := r.takeWhile fun c => c ≠ ']'
    let r1 := r.dropWhile fun c => c ≠ ']'
    if text.isEmpty then none
    else if r1.take 2 = [']', '('] then
      let r2 := r1.drop 2
      let url := r2.takeWhile fun c => c ≠ ')'
      let r3 := r2.dropWhile fun c => c ≠ ')'
      if url.isEmpty then none
      else if r3.take 1 = [')'] then
        some ((text, url), 1 + text.length + 2 + url.length + 1)
      else none
    else none
  | _ => none

/-- The replacement callback of the markdown-link conversion
(route.ts 357-365).  `try { u = new URL(url); if (!u.hash) u.hash =
email } catch {}` leaves `u` possibly `null`; the fallback
`new URL(url, 'https://dummy.invalid')` is outside any `try`, so its
failure is a thrown `Invalid URL`. -/
def mdCallback (email : String) (text url : List Char) :
    Except String (List Char) :=
  let urlS := String.mk url
  let u : Option JsURL :=
    (jsNewURL urlS).map fun u => if u.hash = "" then setHash u email else u
  let href : Except String String :=
    match u with
    | some uu => .ok (urlToString uu)
    | none =>
      match jsNewURLWithBase urlS "https://dummy.invalid" with
      | some uu => .ok (urlToString uu)
      | none => .error "Invalid URL"
  match href with
  | .error e => .error e
  | .ok h =>
    if jsStartsWith (String.mk text) "!btn!" then
      let btn := jsTrim (jsReplaceFirst (String.mk text) "!btn!" "")
      .ok ("<div style=\"text-align:center;margin:20px 0;\"><a href=\"" ++ h ++
        "\" target=\"_blank\" class=\"button\">" ++ btn ++ "</a></div>").toList
    else
      .ok ("<a href=\"" ++ h ++
        "\" style=\"color:#2563eb;text-decoration:underline;\" target=\"_blank\">" ++
        String.mk text ++ "</a>").toList

/-- The global markdown-link replacement (structural on a fuel
instantiated with the input length).  In the match case `k ≥ 1`, so
`cs.drop (k - 1)` is the input minus the whole match. -/
def mdScanF (email : String) : Nat → List Char → Except String (List Char)
  | 0, cs => .ok cs
  | _ + 1, [] => .ok []
  | fuel + 1, c :: cs =>
    match tryMdLink (c :: cs) with
    | some ((text, url), k) =>
      match mdCallback email text url with
      | .error e => .error e
      | .ok repl => (mdScanF email fuel (cs.drop (k - 1))).map fun t => repl ++ t
    | none => (mdScanF email fuel cs).map fun t => c :: t

def mdScan (email : String) (cs : List Char) : Except String (List Char) :=
  mdScanF email cs.length cs

/-- Character class `[^\s<)]` of the `firstUrl` regex (route.ts 367). -/
def firstUrlChar (c : Char) : Bool := ¬ (isWsJs c ∨ c = '<' ∨ c = ')')

/-- Character class `[^\s<"]` of the bare-URL regex (route.ts 370). -/
def bareUrlChar (c : Char) : Bool := ¬ (isWsJs c ∨ c = '<' ∨ c = '"')

/-- A bare `https?:\/\/……` token (with the given run class) matched at the
head of the input: returns the token and its length.  These regexes have
no `i` flag, so the scheme is matched case-sensitively. -/
def tryBareUrl (cls : Char → Bool) (cs : List Char) :
    Option (List Char × Nat) :=
  let parsed : Option (List Char × List Char) :=
    if cs.take 7 = "http://".toList then some (cs.take 7, cs.drop 7)
    else if cs.take 8 = "https://".toList then some (cs.take 8, cs.drop 8)
    else none
  match parsed with
  | none => none
  | some (sch, r) =>
    let run := r.takeWhile cls
    if run.isEmpty then none
    else some (sch ++ run, sch.length + run.length)

/-- `withMarkdownLinks.match(/https?:\/\/[^\s<)]+/)?.[0]`: the first URL
token (route.ts 367-368). -/
def findFirstUrl : List Char → Option (List Char)
  | [] => none
  | c :: cs =>
    match tryBareUrl firstUrlChar (c :: cs) with
    | some (url, _) => some url
    | none => findFirstUrl cs

/-- The replacement callback of the bare-URL linkification
(route.ts 370-378); the `try`/`catch` makes it total: a URL that fails to
parse is emitted as a literal anchor with the raw string. -/
def bareCallback (email : String) (url : List Char) : List Char :=
  match jsNewURL (String.mk url) with
  | some u =>
    let u2 := if u.hash = "" then setHash u email else u
    ("<a href=\"" ++ urlToString u2 ++
      "\" style=\"color:#2563eb;text-decoration:underline;word-break:break-all;\" target=\"_blank\">" ++
      String.mk url ++ "</a>").toList
  | none =>
    ("<a href=\"" ++ String.mk url ++
      "\" style=\"color:#2563eb;text-decoration:underline;word-break:break-all;\" target=\"_blank\">" ++
      String.mk url ++ "</a>").toList

/-- The global bare-URL replacement (route.ts 370-378), structural on a
fuel instantiated with the input length. -/
def bareUrlStepF (email : String) : Nat → List Char → List Char
  | 0, cs => cs
  | _ + 1, [] => []
  | fuel + 1, c :: cs =>
    match tryBareUrl bareUrlChar (c :: cs) with
    | some (url, k) =>
      bareCallback email url ++ bareUrlStepF email fuel (cs.drop (k - 1))
    | none => c :: bareUrlStepF email fuel cs

def bareUrlStep (email : String) (cs : List Char) : List Char :=
  bareUrlStepF email cs.length cs

/-! ### The call-to-action buttonisation (route.ts 380-389)

`new RegExp('(^|\\n)\\s*(?:view\\s*more|learn\\s*more|see\\s*more)\\s*(?=\\n|$)', 'gi')`:
a match starts at the string start or at a newline (captured as the
prefix), eats whitespace, one of the phrases (with flexible internal
whitespace, case-insensitively), then trailing whitespace up to — but not
including — a newline or the end of the string (the greedy `\s*` backs
off to the last newline of the run so the lookahead succeeds). -/

/-- `a\s*b` case-insensitively at the head of the input: returns the
consumed characters. -/
def tryPhraseCI (a b : String) (cs : List Char) : Option (List Char) :=
  match matchCI a.toList cs with
  | none => none
  | some (ca, r) =>
    let wsr := r.takeWhile isWsJs
    match matchCI b.toList (r.dropWhile isWsJs) with
    | none => none
    | some (cb, _) => some (ca ++ wsr ++ cb)

/-- Index of the last `\n` of a list, if any. -/
def lastNewlineIdx (l : List Char) : Option Nat :=
  match l.reverse.findIdx? fun c => c = '\n' with
  | some j => some (l.length - 1 - j)
  | none => none

/-- The body `\s*(?:view\s*more|learn\s*more|see\s*more)\s*(?=\n|$)`
matched at the head of the input (the part of a CTA match after its
`(^|\n)` prefix); returns the consumed characters. -/
def tryCtaBody (cs : List Char) : Option (List Char) :=
  let w1 := cs.takeWhile isWsJs
  let r1 := cs.dropWhile isWsJs
  let ph :=
    (tryPhraseCI "view" "more" r1).orElse fun _ =>
    (tryPhraseCI "learn" "more" r1).orElse fun _ =>
    tryPhraseCI "see" "more" r1
  match ph with
  | none => none
  | some phc =>
    let r2 := r1.drop phc.length
    let wRun := r2.takeWhile isWsJs
    let tail := r2.dropWhile isWsJs
    if tail.isEmpty then some (w1 ++ phc ++ wRun)
    else
      match lastNewlineIdx wRun with
      | none => none
      | some i => some (w1 ++ phc ++ wRun.take i)

/-- `\s+` collapsed to single spaces (the first `replace` of the CTA
normalisation), structural on a fuel instantiated with the input
length. -/
def collapseWsF : Nat → List Char → List Char
  | 0, cs => cs
  | _ + 1, [] => []
  | fuel + 1, c :: cs =>
    if isWsJs c then ' ' :: collapseWsF fuel (cs.dropWhile isWsJs)
    else c :: collapseWsF fuel cs

def collapseWs (cs : List Char) : List Char := collapseWsF cs.length cs

/-- Word characters `\w`. -/
def isWordC (c : Char) : Bool :=
  ('a' ≤ c ∧ c ≤ 'z') ∨ ('A' ≤ c ∧ c ≤ 'Z') ∨ ('0' ≤ c ∧ c ≤ '9') ∨ c = '_'

/-- `.replace(/\b\w/g, c => c.toUpperCase())`: upper-case each character
that starts a word. -/
def upperWordStartsGo (boundary : Bool) : List Char → List Char
  | [] => []
  | c :: cs =>
    if isWordC c then (if boundary then upperC c else c) :: upperWordStartsGo false cs
    else c :: upperWordStartsGo true cs

/-- `match.trim().toLowerCase().replace(/\s+/g, ' ').replace(/\b\w/g, …)`
(route.ts 385). -/
def normalizeCta (m : List Char) : String :=
  String.mk (upperWordStartsGo true
    (collapseWs (jsToLower (jsTrim (String.mk m))).toList))

/-- The CTA replacement callback (route.ts 383-389).  Without a
`firstUrl` the match is returned unchanged; otherwise
`new URL(firstUrl)` — outside any `try` — may throw, and on success
`u.hash = email` is set unconditionally. -/
def ctaCallback (firstUrl : Option (List Char)) (email : String)
    (pre fullMatch : List Char) : Except String (List Char) :=
  match firstUrl with
  | none => .ok fullMatch
  | some fu =>
    match jsNewURL (String.mk fu) with
    | none => .error "Invalid URL"
    | some u =>
      let u2 := setHash u email
      .ok (pre ++
        ("<div style=\"text-align:center;margin:20px 0;\"><a href=\"" ++
          urlToString u2 ++ "\" target=\"_blank\" class=\"button\">" ++
          normalizeCta fullMatch ++ "</a></div>").toList)

/-- The CTA scan away from the string start: only a `\n` can begin a
match (as the captured prefix).  Structural on a fuel instantiated with
the input length. -/
def ctaScanGoF (firstUrl : Option (List Char)) (email : String) :
    Nat → List Char → Except String (List Char)
  | 0, cs => .ok cs
  | _ + 1, [] => .ok []
  | fuel + 1, c :: cs =>
    if c = '\n' then
      match tryCtaBody cs with
      | some consumed =>
        match ctaCallback firstUrl email ['\n'] ('\n' :: consumed) with
        | .error e => .error e
        | .ok repl =>
          (ctaScanGoF firstUrl email fuel (cs.drop consumed.length)).map fun t =>
            repl ++ t
      | none => (ctaScanGoF firstUrl email fuel cs).map fun t => '\n' :: t
    else (ctaScanGoF firstUrl email fuel cs).map fun t => c :: t

def ctaScanGo (firstUrl : Option (List Char)) (email : String)
    (cs : List Char) : Except String (List Char) :=
  ctaScanGoF firstUrl email cs.length cs

/-- The CTA step (route.ts 380-389): one anchored attempt at the string
start (the `^` alternative of the prefix), then the newline-anchored
scan. -/
def ctaStep (firstUrl : Option (List Char)) (email : String)
    (cs : List Char) : Except String (List Char) :=
  match tryCtaBody cs with
  | some consumed =>
    match ctaCallback firstUrl email [] consumed with
    | .error e => .error e
    | .ok repl =>
      (ctaScanGo firstUrl email (cs.drop consumed.length)).map fun t =>
        repl ++ t
  | none => ctaScanGo firstUrl email cs

/-! ### Paragraph wrapping (route.ts 391-396) -/

/-- `/^<div[\s>]/i` and `/^<a[\s>]/i`: the line already starts with
block-level markup. -/
def startsTag (tag : String) (p : String) : Bool :=
  decide ((p.toList.take tag.length).map lowerC = tag.toList) &&
    (match p.toList.drop tag.length with
     | c :: _ => isWsJs c || decide (c = '>')
     | [] => false)

/-- Split on newlines, trim, drop empties, wrap non-block lines in styled
paragraph elements, join. -/
def paragraphWrap (s : List Char) : List Char :=
  (String.join (((splitChar '\n' s).map String.mk).map jsTrim
    |>.filter (fun p => p ≠ "")
    |>.map fun p =>
      if startsTag "<div" p ∨ startsTag "<a" p then p
      else "<p style=\"font-size:15px;margin:15px 0;line-height:1.6;\">" ++
        p ++ "</p>")).toList

/-! ## `addEmailHashToLinks` (route.ts 346-349)

`html.replace(/href=(["'])(https?:\/\/[^"'#\s]+)(#[^"']*)?\1/gi, (_m,
quote, url, hash) => hash ? _m : href=quote url #email quote)`.
The regex is embedded as a deterministic parser: the greedy character
classes exclude their stop characters, so no backtracking can succeed and
the JavaScript engine's leftmost-greedy match is exactly the one
computed here. -/

/-- The quote class `["']`. -/
def isQuoteC (c : Char) : Bool := c = '"' ∨ c = '\''

/-- The URL run class `[^"'#\s]`. -/
def urlOkC (c : Char) : Bool := ¬ (isQuoteC c ∨ c = '#' ∨ isWsJs c)

/-- The fragment run class `[^"']`. -/
def hashOkC (c : Char) : Bool := ¬ isQuoteC c

/-- `https?:\/\/` case-insensitively at the head of the input: returns the
consumed characters (original case) and the rest. -/
def matchScheme (cs : List Char) : Option (List Char × List Char) :=
  match matchCI "http".toList cs with
  | none => none
  | some (h4, r) =>
    match r with
    | [] => none
    | c :: r' =>
      if lowerC c = 's' then
        match matchCI "://".toList r' with
        | none => none
        | some (sl, rr) => some (h4 ++ c :: sl, rr)
      else
        match matchCI "://".toList r with
        | none => none
        | some (sl, rr) => some (h4 ++ sl, rr)

/-- A successful match of the `href` regex: the whole consumed text, the
quote character, the URL (capture group 2), the optional fragment
(capture group 3, including its `#`), and the remaining input. -/
structure HrefMatch where
  full : List Char
  quote : Char
  url : List Char
  hash : Option (List Char)
  rest : List Char
deriving Repr

/-- The `href` regex matched at the head of the input. -/
def tryHrefMatch (cs : List Char) : Option HrefMatch :=
  match matchCI "href=".toList cs with
  | none => none
  | some (h5, r1) =>
    match r1 with
    | [] => none
    | q :: r2 =>
      if isQuoteC q then
        match matchScheme r2 with
        | none => none
        | some (sch, r3) =>
          let run := r3.takeWhile urlOkC
          let r4 := r3.dropWhile urlOkC
          if run.isEmpty then none
          else
            match r4 with
            | [] => none
            | c :: r5 =>
              if c = '#' then
                let hr := r5.takeWhile hashOkC
                let r6 := r5.dropWhile hashOkC
                match r6 with
                | [] => none
                | c2 :: r7 =>
                  if c2 = q then
                    some ⟨h5 ++ q :: (sch ++ run ++ ('#' :: hr) ++ [q]), q,
                      sch ++ run, some ('#' :: hr), r7⟩
                  else none
              else if c = q then
                some ⟨h5 ++ q :: (sch ++ run ++ [q]), q, sch ++ run, none, r5⟩
              else none
      else none

/-- The replacement for a fragment-less match:
`` `href=${quote}${url}#${email}${quote}` `` (route.ts 348). -/
def renderNoHash (email : String) (m : HrefMatch) : List Char :=
  "href=".toList ++ m.quote :: (m.url ++ '#' :: email.toList ++ [m.quote])

/-- The shape of every successful `href` match: `full` decomposes into a
case-variant of `href=`, the quote, the URL (a scheme followed by a
non-empty run of URL characters), an optional fragment part, and the
closing quote. -/
def HrefMatchShape (m : HrefMatch) : Prop :=
  ∃ h5 sch run hp,
    m.full = h5 ++ m.quote :: (m.url ++ hp ++ [m.quote]) ∧
    h5.map lowerC = "href=".toList ∧
    isQuoteC m.quote = true ∧
    m.url = sch ++ run ∧
    (sch.map lowerC = "http://".toList ∨
     sch.map lowerC = "https://".toList) ∧
    run ≠ [] ∧ (∀ c ∈ run, urlOkC c = true) ∧
    ((m.hash = none ∧ hp = []) ∨
     (∃ hr, m.hash = some hp ∧ hp = '#' :: hr ∧ ∀ c ∈ hr, hashOkC c = true))

/-- The global scan of `addEmailHashToLinks`: a match that already has a
fragment is emitted verbatim (`_m`), a fragment-less one gets the
recipient appended; scanning resumes after the match.  `m.full` is a
non-empty prefix of the input (see `tryHrefMatch_decomp`), so
`cs.drop (m.full.length - 1)` is `m.rest`. -/
def hashLinksScanF (email : String) : Nat → List Char → List Char
  | 0, cs => cs
  | _ + 1, [] => []
  | fuel + 1, c :: cs =>
    match tryHrefMatch (c :: cs) with
    | some m =>
      (match m.hash with
       | some _ => m.full
       | none => renderNoHash email m) ++
        hashLinksScanF email fuel (cs.drop (m.full.length - 1))
    | none => c :: hashLinksScanF email fuel cs

def hashLinksScan (email : String) (cs : List Char) : List Char :=
  hashLinksScanF email cs.length cs

/-- `addEmailHashToLinks(html, email)` (route.ts 346-349). -/
def addEmailHashToLinks (html email : String) : String :=
  String.mk (hashLinksScan email html.toList)

/-! ## Document assembly (route.ts 398-477) -/

/-- `sender.email.split('@')[1] || 'yourdomain.com'` (route.ts 399, 496). -/
def jsDomainOf (senderEmail : String) : String :=
  match splitChar '@' senderEmail.toList with
  | _ :: d :: _ => if d = [] then "yourdomain.com" else String.mk d
  | _ => "yourdomain.com"

/-- Full-document detection (route.ts 353):
`/^\s*<!doctype html>/i.test(trimmed) || /^\s*<html[^>]*>/i.test(trimmed)`
on the already-trimmed content (the leading `\s*` is vacuous there). -/
def isFullHtmlDoc (trimmed : List Char) : Bool :=
  decide ((trimmed.take 15).map lowerC = "<!doctype html>".toList) ||
    (decide ((trimmed.take 5).map lowerC = "<html".toList) &&
      (trimmed.drop 5).any fun c => c = '>')

/-- The responsive document shell of `formatHtmlContent`
(route.ts 402-477), with the template-literal interpolations as
parameters.  Literal braces of the embedded CSS are written `\x7b` /
`\x7d` and apostrophes `\x27`. -/
def documentShell (subjectLine paragraphs : String) (currentYear : Nat)
    (senderName physicalAddress domain encEmail : String) : String :=
  "<!DOCTYPE html PUBLIC \"-//W3C//DTD XHTML 1.0 Transitional//EN\" \"http://www.w3.org/TR/xhtml1/DTD/xhtml1-transitional.dtd\">
<html xmlns=\"http://www.w3.org/1999/xhtml\" xmlns:v=\"urn:schemas-microsoft-com:vml\" xmlns:o=\"urn:schemas-microsoft-com:office:office\">
<head>
  <meta http-equiv=\"Content-Type\" content=\"text/html; charset=utf-8\" />
  <meta name=\"viewport\" content=\"width=device-width, initial-scale=1.0\" />
  <meta name=\"format-detection\" content=\"telephone=no\" />
  <meta name=\"x-apple-disable-message-reformatting\" />
  <title>" ++ subjectLine ++ "</title>
  <!--[if mso]>
  <style type=\"text/css\">
    body, table, td \x7bfont-family: Arial, sans-serif !important;\x7d
  </style>
  <![endif]-->
  <style type=\"text/css\">
    /* Base styles */
    body, #bodyTable, #bodyCell \x7b height: 100% !important; margin: 0; padding: 0; width: 100% !important; \x7d
    body \x7b -webkit-text-size-adjust: 100%; -ms-text-size-adjust: 100%; margin: 0; padding: 0; \x7d
    img \x7b -ms-interpolation-mode: bicubic; border: 0; height: auto; line-height: 100%; outline: none; text-decoration: none; \x7d
    table \x7b border-collapse: collapse; mso-table-lspace: 0pt; mso-table-rspace: 0pt; \x7d
    #outlook a \x7b padding: 0; \x7d
    .ReadMsgBody \x7b width: 100%; \x7d .ExternalClass \x7b width: 100%; \x7d
    .ExternalClass, .ExternalClass p, .ExternalClass span, .ExternalClass font, .ExternalClass td, .ExternalClass div \x7b line-height: 100%; \x7d
    
    /* Responsive styles */
    @media only screen and (max-width: 600px) \x7b
      .email-container \x7b width: 100% !important; padding: 15px !important; \x7d
      .button \x7b display: block !important; width: 100% !important; max-width: 280px !important; margin: 20px auto !important; \x7d
      .mobile-padding \x7b padding-left: 15px !important; padding-right: 15px !important; \x7d
      .mobile-stack \x7b display: block !important; width: 100% !important; \x7d
    \x7d
    
    /* Custom styles */
    .email-container \x7b max-width: 600px; margin: 0 auto; background: #ffffff; border-radius: 8px; overflow: hidden; \x7d
    .email-content \x7b padding: 30px; \x7d
    .email-footer \x7b font-size: 12px; color: #666666; text-align: center; padding: 20px; border-top: 1px solid #eeeeee; \x7d
    .button \x7b background-color: #2563eb; color: #ffffff !important; text-decoration: none; padding: 12px 24px; border-radius: 6px; display: inline-block; font-weight: bold; \x7d
    p \x7b margin: 15px 0; line-height: 1.6; font-size: 15px; color: #333333; \x7d
    h1, h2, h3 \x7b color: #222222; margin-top: 0; \x7d
  </style>
</head>
<body style=\"margin: 0; padding: 0; background-color: #f8f9fa; font-family: Arial, sans-serif; -webkit-font-smoothing: antialiased; -webkit-text-size-adjust: none; width: 100% !important; height: 100% !important;\">
  <table border=\"0\" cellpadding=\"0\" cellspacing=\"0\" width=\"100%\" bgcolor=\"#f8f9fa\">
    <tr>
      <td align=\"center\" valign=\"top\">
        <table class=\"email-container\" border=\"0\" cellpadding=\"0\" cellspacing=\"0\" width=\"600\" bgcolor=\"#ffffff\">
          <tr>
            <td align=\"left\" valign=\"top\" class=\"email-content\" style=\"padding: 30px;\">
              <!-- Email Content -->
              " ++ paragraphs ++ "
              
              <!-- Email Footer -->
              <table border=\"0\" cellpadding=\"0\" cellspacing=\"0\" width=\"100%\">
                <tr>
                  <td style=\"padding: 20px 0 0 0; border-top: 1px solid #eeeeee;\">
                    <p style=\"font-size: 12px; color: #666666; margin: 0; text-align: center;\">
                      &copy; " ++ toString currentYear ++ " " ++ senderName ++ ". All rights reserved.<br />
                      " ++ physicalAddress ++ "<br />
                      <a href=\"https://" ++ domain ++ "\" style=\"color: #2563eb; text-decoration: none;\">" ++ domain ++ "</a> | 
                      <a href=\"mailto:unsubscribe@" ++ domain ++ "\" style=\"color: #2563eb; text-decoration: none;\">Unsubscribe</a> | 
                      <a href=\"https://" ++ domain ++ "/preferences\" style=\"color: #2563eb; text-decoration: none;\">Update Preferences</a>
                    </p>
                    <p style=\"font-size: 10px; color: #999999; margin: 10px 0 0 0; text-align: center; line-height: 1.4;\">
                      You\x27re receiving this email because you signed up for updates from " ++ senderName ++ ".<br />
                      If you\x27d prefer not to receive future emails, you may <a href=\"https://" ++ domain ++ "/unsubscribe?email=" ++ encEmail ++ "\" style=\"color: #2563eb; text-decoration: none;\">unsubscribe here</a>.
                    </p>
                  </td>
                </tr>
              </table>
            </td>
          </tr>
        </table>
      </td>
    </tr>
  </table>
</body>
</html>"

/-- `formatHtmlContent(content, subjectLine, email)` (route.ts 351-478).
`companyAddress` injects `process.env.COMPANY_ADDRESS` and `currentYear`
the `new Date().getFullYear()` footer stamp; `sender` is the closed-over
request sender.  `.error` models an exception escaping the function (a
`new URL` failure outside any `try`). -/
def formatHtmlContent (companyAddress : Option String) (sender : Sender)
    (currentYear : Nat) (content subjectLine email : String) :
    Except String String :=
  let trimmed := jsTrim content
  if isFullHtmlDoc trimmed.toList then .ok (addEmailHashToLinks trimmed email)
  else
    match mdScan email trimmed.toList with
    | .error e => .error e
    | .ok withMarkdownLinks =>
      let firstUrl := findFirstUrl withMarkdownLinks
      let withPlainLinks := bareUrlStep email withMarkdownLinks
      match ctaStep firstUrl email withPlainLinks with
      | .error e => .error e
      | .ok withViewMoreBtn =>
        let domain := jsDomainOf sender.email
        let physicalAddress :=
          jsOrStr companyAddress "Your Company Address, City, Country"
        .ok (documentShell subjectLine
          (String.mk (paragraphWrap withViewMoreBtn)) currentYear
          sender.name physicalAddress domain (encodeURIComponent email))

/-! # Theorems

## Generic lemmas about the dispatch loop -/

theorem batchesOf_flatten (l : List String) : (batchesOf l).flatten = l := by
  induction l using batchesOf.induct with
  | case1 l he =>
    have hl : l = [] := List.isEmpty_iff.mp he
    subst hl; rw [batchesOf]; norm_num
  | case2 l he ih => rw [batchesOf]; simp [he, ih]

theorem flatten_map_map {α β : Type} (f : α → β) (ll : List (List α)) :
    (ll.map fun l => l.map f).flatten = ll.flatten.map f := by
  induction ll with
  | nil => simp
  | cons l ll ih =>
    simp only [List.map_cons, List.flatten_cons, List.map_append, ih]

/-- The batch loop produces exactly the per-recipient outcomes, in queue
order. -/
theorem processAll_eq_map (oracle : String → Nat → AttemptOutcome)
    (emails : List String) :
    processAll oracle emails =
      emails.map fun r => (sendOneWithRetry (oracle r) r).1 := by
  unfold processAll runBatch
  rw [flatten_map_map, batchesOf_flatten]

theorem countSuccess_add_countFail (rs : List SendResult) :
    countSuccess rs + countFail rs = rs.length := by
  induction rs with
  | nil => simp [countSuccess, countFail]
  | cons r rs ih =>
    simp only [countSuccess, countFail, List.countP_cons] at *
    cases h : r.isSuccess <;> simp [h] <;> omega

/-- Every iteration of the retry loop records the recipient it was given. -/
theorem sendAttemptLoop_email (oracle : Nat → AttemptOutcome) (rcpt : String)
    (att : Nat) (d : List Nat) :
    ((sendAttemptLoop oracle rcpt att d).1).email = rcpt := by
  induction att, d using sendAttemptLoop.induct oracle rcpt with
  | case1 att d hle mid hor =>
    rw [sendAttemptLoop]; simp [hle, hor, SendResult.email]
  | case2 att d hle msg code resp rcode hor hcond ih =>
    rw [sendAttemptLoop]; simp [hle, hor, hcond]; exact ih
  | case3 att d hle msg code resp rcode hor hcond =>
    rw [sendAttemptLoop]; simp [hle, hor, hcond, SendResult.email]
  | case4 att d hle => rw [sendAttemptLoop]; simp [hle, SendResult.email]

/-- If every attempt throws, the retry loop resolves to a failed outcome
(never a success, never an unhandled exception). -/
theorem sendAttemptLoop_fail_of_threw (oracle : Nat → AttemptOutcome)
    (rcpt : String) (att : Nat) (d : List Nat)
    (h : ∀ a, (oracle a).isThrew = true) :
    ((sendAttemptLoop oracle rcpt att d).1).isSuccess = false := by
  induction att, d using sendAttemptLoop.induct oracle rcpt with
  | case1 att d hle mid hor =>
    exact absurd (h att) (by rw [hor]; simp [AttemptOutcome.isThrew])
  | case2 att d hle msg code resp rcode hor hcond ih =>
    rw [sendAttemptLoop]; simp [hle, hor, hcond]; exact ih
  | case3 att d hle msg code resp rcode hor hcond =>
    rw [sendAttemptLoop]; simp [hle, hor, hcond, SendResult.isSuccess]
  | case4 att d hle => rw [sendAttemptLoop]; simp [hle, SendResult.isSuccess]

/-- The shape of the handler's response once validation, configuration
and pre-flight verification succeed. -/
theorem POST_ok (env : Env) (oracle : String → Nat → AttemptOutcome)
    (p : EmailPayload)
    (h1 : ¬ p.emails.isEmpty) (h2 : jsTrim p.subject ≠ "")
    (h3 : jsTrim p.htmlContent ≠ "")
    (h4 : p.sender.email ≠ "") (h5 : p.sender.name ≠ "")
    (h6 : strTruthy env.smtpUser = true) (h7 : strTruthy env.smtpPass = true) :
    POST env none oracle p =
      .ok (s!"Processed {p.emails.length} email(s)")
        ⟨p.emails.length, countSuccess (processAll oracle p.emails),
          countFail (processAll oracle p.emails)⟩
        (processAll oracle p.emails) := by
  have h4' : strTruthy (some p.sender.email) = true := by simp [strTruthy, h4]
  have h5' : strTruthy (some p.sender.name) = true := by simp [strTruthy, h5]
  unfold POST
  simp [h1, h2, h3, h4', h5', h6, h7]


/-! ## Claim theorems -/

/-- C1: for every valid campaign request processed after a successful
pre-flight verification, the returned summary satisfies
`success + failed = total` and `total = emails.length`, and the results
sequence contains exactly one delivery outcome per input recipient
(retries are internal to `sendOneWithRetry` and contribute no extra
outcome; no recipient is skipped).  The worker pool is serialised in
queue order; the stated facts are invariant under the completion-order
permutation of the real pool. -/
theorem c1_summary_accounting (env : Env)
    (oracle : String → Nat → AttemptOutcome) (p : EmailPayload)
    (h1 : ¬ p.emails.isEmpty) (h2 : jsTrim p.subject ≠ "")
    (h3 : jsTrim p.htmlContent ≠ "")
    (h4 : p.sender.email ≠ "") (h5 : p.sender.name ≠ "")
    (h6 : strTruthy env.smtpUser = true) (h7 : strTruthy env.smtpPass = true) :
    ∃ (msg : String) (s f : Nat) (rs : List SendResult),
      POST env none oracle p = .ok msg ⟨p.emails.length, s, f⟩ rs ∧
      s + f = p.emails.length ∧
      rs.map SendResult.email = p.emails := by
  refine ⟨_, _, _, _, POST_ok env oracle p h1 h2 h3 h4 h5 h6 h7, ?_, ?_⟩
  · rw [countSuccess_add_countFail, processAll_eq_map, List.length_map]
  · rw [processAll_eq_map, List.map_map]
    have he : SendResult.email ∘ (fun r => (sendOneWithRetry (oracle r) r).1) =
        id := by
      funext r; exact sendAttemptLoop_email (oracle r) r 0 []
    rw [he, List.map_id]

/-- Witness for C1 at a concrete valid request with an always-succeeding
transport. -/
theorem c1_summary_accounting_witness :
    ∃ (msg : String) (s f : Nat) (rs : List SendResult),
      POST ⟨some "u", some "p", none, none⟩ none (fun _ _ => .ok (some "id"))
        ⟨["a@x.com"], "Hi", "Hello", ⟨"S", "s@x.com"⟩⟩ =
        .ok msg ⟨1, s, f⟩ rs ∧
      s + f = 1 ∧ rs.map SendResult.email = ["a@x.com"] :=
  c1_summary_accounting _ _ _ (by decide) (by decide) (by decide) (by decide)
    (by decide) (by decide) (by decide)

/-- C2: once validation and pre-flight verification succeed, the handler
returns a summary response for every behaviour of the per-recipient
attempt — including one that throws on every attempt — never an
exception; a recipient all of whose attempts throw is recorded as a
failed entry, and every recipient still receives exactly one entry
(no batch is aborted). -/
theorem c2_dispatch_total (env : Env)
    (oracle : String → Nat → AttemptOutcome) (p : EmailPayload)
    (h1 : ¬ p.emails.isEmpty) (h2 : jsTrim p.subject ≠ "")
    (h3 : jsTrim p.htmlContent ≠ "")
    (h4 : p.sender.email ≠ "") (h5 : p.sender.name ≠ "")
    (h6 : strTruthy env.smtpUser = true) (h7 : strTruthy env.smtpPass = true) :
    ∃ (msg : String) (sum : Summary) (rs : List SendResult),
      POST env none oracle p = .ok msg sum rs ∧
      rs.map SendResult.email = p.emails ∧
      ∀ r ∈ rs, (∀ a, ((oracle r.email) a).isThrew = true) →
        r.isSuccess = false := by
  refine ⟨_, _, _, POST_ok env oracle p h1 h2 h3 h4 h5 h6 h7, ?_, ?_⟩
  · rw [processAll_eq_map, List.map_map]
    have he : SendResult.email ∘ (fun r => (sendOneWithRetry (oracle r) r).1) =
        id := by
      funext r; exact sendAttemptLoop_email (oracle r) r 0 []
    rw [he, List.map_id]
  · intro r hr hthrew
    rw [processAll_eq_map] at hr
    obtain ⟨x, hx, rfl⟩ := List.mem_map.mp hr
    have hemail : ((sendOneWithRetry (oracle x) x).1).email = x :=
      sendAttemptLoop_email (oracle x) x 0 []
    rw [hemail] at hthrew
    exact sendAttemptLoop_fail_of_threw (oracle x) x 0 [] hthrew

/-- Witness for C2 at a concrete valid request whose every attempt
throws. -/
theorem c2_dispatch_total_witness :
    ∃ (msg : String) (sum : Summary) (rs : List SendResult),
      POST ⟨some "u", some "p", none, none⟩ none
        (fun _ _ => .threw none none none none)
        ⟨["b@x.com"], "Hi", "Hello", ⟨"S", "s@x.com"⟩⟩ =
        .ok msg sum rs ∧
      rs.map SendResult.email = ["b@x.com"] ∧
      ∀ r ∈ rs, (∀ a, (((fun (_ : String) (_ : Nat) =>
          AttemptOutcome.threw none none none none) r.email) a).isThrew = true) →
        r.isSuccess = false :=
  c2_dispatch_total _ _ _ (by decide) (by decide) (by decide) (by decide)
    (by decide) (by decide) (by decide)

/-- C3: the retry classifier marks a failure Transient exactly when it
carries a 4xx response code or its response text contains one of the
fixed transient markers (case-insensitive substring); in particular 450
is Transient for every response text, 550 is Transient only through a
marker (Permanent for non-matching text), and a failure carrying neither
a code nor a response text is Permanent. -/
theorem c3_transient_classification :
    (∀ code response, isTransientSmtpError code response =
      (codeIn4xx code || responseHasMarker response)) ∧
    (∀ response, isTransientSmtpError (some 450) response = true) ∧
    (∀ s, isTransientSmtpError (some 550) (some s) =
      responseHasMarker (some s)) ∧
    isTransientSmtpError none none = false := by
  have main : ∀ code response, isTransientSmtpError code response =
      (codeIn4xx code || responseHasMarker response) := by
    intro code response
    unfold isTransientSmtpError
    split_ifs with g1 g2
    · obtain ⟨gc, gr⟩ := g1
      have hc : codeIn4xx code = false := by
        cases code with
        | none => rfl
        | some n =>
          simp only [numTruthy, ne_eq, Bool.not_eq_true, decide_eq_false_iff_not,
            Decidable.not_not] at gc
          subst gc; decide
      have hr : responseHasMarker response = false := by
        cases response with
        | none => decide
        | some t =>
          simp only [strTruthy, ne_eq, Bool.not_eq_true, decide_eq_false_iff_not,
            Decidable.not_not] at gr
          subst gr; decide
      simp [hc, hr]
    · obtain ⟨t1, t2, t3⟩ := g2
      have hc : codeIn4xx code = true := by
        cases code with
        | none => simp [numTruthy] at t1
        | some n =>
          simp only [Option.getD] at t2 t3
          simp [codeIn4xx]
          exact ⟨t2, t3⟩
      simp [hc]
    · have hc : codeIn4xx code = false := by
        cases code with
        | none => rfl
        | some n =>
          by_cases hn : n = 0
          · subst hn; decide
          · simp only [codeIn4xx, decide_eq_false_iff_not]
            intro hcontra
            exact g2 ⟨by simp [numTruthy, hn], by simpa using hcontra.1,
              by simpa using hcontra.2⟩
      simp only [hc, Bool.false_or]
      rfl
  refine ⟨main, ?_, ?_, by decide⟩
  · intro response
    rw [main]
    have : codeIn4xx (some 450) = true := by decide
    simp [this]
  · intro t
    rw [main]
    have : codeIn4xx (some 550) = false := by decide
    simp [this]

/-- C4 (code bug): with a transiently-failing send on every attempt the
loop backs off `BASE_BACKOFF_MS * 2 ^ attempt` before each of its three
re-attempts and then records a single failure — but the recorded error
detail is the final attempt's own message, not the "Exceeded retry
attempts" diagnostic: the fall-through `return` of route.ts 565 is
unreachable, because the retry branch requires `attempt < MAX_RETRIES`,
so the loop condition `attempt <= MAX_RETRIES` never fails. -/
theorem c4_retry_exhaustion_keeps_last_error :
    sendOneWithRetry (fun _ => .threw (some "boom") none none (some 450))
      "r@x.com" =
      (.failed "r@x.com" "boom" none none (some 450), [2000, 4000, 8000]) ∧
    "boom" ≠ "Exceeded retry attempts" := by
  constructor
  · rw [sendOneWithRetry]
    rw [sendAttemptLoop]
    norm_num [MAX_RETRIES, BASE_BACKOFF_MS,
      show isTransientSmtpError (some 450) none = true from by decide]
    rw [sendAttemptLoop]
    norm_num [MAX_RETRIES, BASE_BACKOFF_MS,
      show isTransientSmtpError (some 450) none = true from by decide]
    rw [sendAttemptLoop]
    norm_num [MAX_RETRIES, BASE_BACKOFF_MS,
      show isTransientSmtpError (some 450) none = true from by decide]
    rw [sendAttemptLoop]
    norm_num [MAX_RETRIES, BASE_BACKOFF_MS,
      show isTransientSmtpError (some 450) none = true from by decide]
  · decide

/-- C6 (code bug): the rendering pipeline is not total on content — for
the template `[x](http://)` the markdown-link step throws `Invalid URL`
(the fallback `new URL(url, 'https://dummy.invalid')` sits outside any
`try` and itself rejects a special-scheme URL without a host), and the
exception propagates out of `formatHtmlContent`. -/
theorem c6_render_throws_on_malformed_url :
    formatHtmlContent none ⟨"S", "s@x.com"⟩ 2026 "[x](http://)" "Subject"
      "e@x.com" = .error "Invalid URL" ∧
    mdScan "e@x.com" "[x](http://)".toList = .error "Invalid URL" ∧
    jsNewURL "http://" = none ∧
    jsNewURLWithBase "http://" "https://dummy.invalid" = none :=
  ⟨by rfl, by rfl, by rfl, by rfl⟩

/-- C7 (code bug): the display-name derivation behaves as specified on
the positive examples, but the empty-derivation default "there" is dead:
in JavaScript `''.split(/\s+/)` is `['']`, so `parts.length` is never
`0`, and `"@example.com"` yields the empty string (placeholders are
replaced by nothing) instead of "there". -/
theorem c7_name_derivation :
    nameFromEmail "name@example.com" = "Name" ∧
    nameFromEmail "first.last+promo@x.com" = "First Last" ∧
    nameFromEmail "john_doe-92@x.com" = "John Doe 92" ∧
    nameFromEmail "@example.com" = "" ∧
    nameFromEmail "@example.com" ≠ "there" ∧
    personalizeContent "Hello {{name}}!" "@example.com" = "Hello !" :=
  ⟨by decide, by decide, by decide, by decide, by decide, by decide⟩

/-- C8 counterexample: the serialised success response of a concrete
valid dispatch carries no `warnings` key at all. -/
theorem c8_no_warnings_counterexample :
    ¬ ("warnings" ∈ (responseJson (POST ⟨some "u", some "p", none, none⟩
      none (fun _ _ => .ok (some "id"))
      ⟨["c@x.com"], "Hi", "Hello", ⟨"S", "s@x.com"⟩⟩)).keys) := by
  rw [POST_ok _ _ _ (by decide) (by decide) (by decide) (by decide)
    (by decide) (by decide) (by decide)]
  simp [responseJson, JVal.keys]

/-- C8 amended: the success response object serialises exactly the keys
`success`, `message`, `summary`, `results` — the `warnings` computation
of route.ts 596-601 is commented out and no `warnings` field exists. -/
theorem c8_ok_response_keys (m : String) (sum : Summary)
    (rs : List SendResult) :
    (responseJson (.ok m sum rs)).keys =
      ["success", "message", "summary", "results"] ∧
    ¬ "warnings" ∈ (responseJson (.ok m sum rs)).keys := by
  constructor <;> simp [responseJson, JVal.keys]

/-- C9 (code bug): the bare-URL pass is not confined to bare tokens — it
matches the URL inside the `href="…"` of the anchor the markdown step
just produced (its character class `[^\s<"]` merely stops at the closing
quote) and replaces it with a whole nested anchor, so step-3 anchors are
rewritten rather than left unchanged. -/
theorem c9_bare_url_pass_rewrites_markdown_anchor :
    mdScan "e@x.com" "[x](https://foo)".toList =
      .ok ("<a href=\"https://foo/#e@x.com\" style=\"color:#2563eb;text-decoration:underline;\" target=\"_blank\">x</a>").toList ∧
    bareUrlStep "e@x.com"
        ("<a href=\"https://foo/#e@x.com\" style=\"color:#2563eb;text-decoration:underline;\" target=\"_blank\">x</a>").toList ≠
      ("<a href=\"https://foo/#e@x.com\" style=\"color:#2563eb;text-decoration:underline;\" target=\"_blank\">x</a>").toList ∧
    String.mk (bareUrlStep "e@x.com"
        ("<a href=\"https://foo/#e@x.com\" style=\"color:#2563eb;text-decoration:underline;\" target=\"_blank\">x</a>").toList) =
      "<a href=\"<a href=\"https://foo/#e@x.com\" style=\"color:#2563eb;text-decoration:underline;word-break:break-all;\" target=\"_blank\">https://foo/#e@x.com</a>\" style=\"color:#2563eb;text-decoration:underline;\" target=\"_blank\">x</a>" :=
  ⟨by rfl, by decide, by rfl⟩

/-- C10: a request whose subject or content is non-empty but blank after
trimming is rejected with a 400 validation error whose message does not
depend on the transport, the environment, or the send oracle — no send
attempt is performed. -/
theorem c10_blank_fields_rejected (p : EmailPayload)
    (h : (p.subject ≠ "" ∧ jsTrim p.subject = "") ∨
         (p.htmlContent ≠ "" ∧ jsTrim p.htmlContent = "")) :
    ∃ m, (∀ env verify oracle, POST env verify oracle p = .badRequest m) ∧
      (PostResponse.badRequest m).status = 400 := by
  by_cases he : p.emails.isEmpty
  · exact ⟨"No email addresses provided",
      fun env v o => by unfold POST; simp [he], rfl⟩
  · by_cases hs : jsTrim p.subject = ""
    · exact ⟨"Email subject is required",
        fun env v o => by unfold POST; simp [he, hs], rfl⟩
    · have hc : jsTrim p.htmlContent = "" := by
        rcases h with ⟨_, h2⟩ | ⟨_, h2⟩
        · exact absurd h2 hs
        · exact h2
      exact ⟨"Email content is required",
        fun env v o => by unfold POST; simp [he, hs, hc], rfl⟩

/-- Witness for C10 at a concrete request with a whitespace-only
subject. -/
theorem c10_blank_fields_rejected_witness :
    ∃ m, (∀ env verify oracle, POST env verify oracle
        ⟨["a@x.com"], " ", "Hello", ⟨"S", "s@x.com"⟩⟩ = .badRequest m) ∧
      (PostResponse.badRequest m).status = 400 :=
  c10_blank_fields_rejected _ (Or.inl ⟨by decide, by decide⟩)



/-! ## C5: `addEmailHashToLinks` — characterisation of the `href` parser

Character-level facts about ASCII case-insensitivity. -/

theorem char_toNat_inj {c d : Char} (h : c.toNat = d.toNat) : c = d := by
  cases c with
  | mk cv cp =>
    cases d with
    | mk dv dp =>
      simp only [Char.toNat] at h
      congr 1
      exact UInt32.ext h

theorem toNat_ofNat_lt (n : Nat) (h : n < 55296) : (Char.ofNat n).toNat = n := by
  have hv : n.isValidChar := Or.inl h
  unfold Char.ofNat
  rw [dif_pos hv]
  unfold Char.ofNatAux Char.toNat
  simp [UInt32.toNat]

theorem lowerC_toNat_of_upper {c : Char} (h : 65 ≤ c.toNat ∧ c.toNat ≤ 90) :
    (lowerC c).toNat = c.toNat + 32 := by
  unfold lowerC
  rw [if_pos h]
  exact toNat_ofNat_lt _ (by omega)

theorem lowerC_eq_self_of_not_upper {c : Char}
    (h : ¬ (65 ≤ c.toNat ∧ c.toNat ≤ 90)) : lowerC c = c := by
  unfold lowerC
  rw [if_neg h]

/-- A character whose code is below 65 is fixed by `lowerC`, and nothing
else lower-cases to it. -/
theorem lowerC_eq_of_lt65 {c x : Char} (hx : x.toNat < 65)
    (h : lowerC c = x) : c = x := by
  by_cases hc : 65 ≤ c.toNat ∧ c.toNat ≤ 90
  · have h1 : (lowerC c).toNat = c.toNat + 32 := lowerC_toNat_of_upper hc
    rw [h] at h1
    omega
  · rw [lowerC_eq_self_of_not_upper hc] at h
    exact h

theorem isQuoteC_lowerC_self {q : Char} (h : isQuoteC q = true) :
    lowerC q = q := by
  simp only [isQuoteC, decide_eq_true_eq] at h
  rcases h with h | h <;> subst h <;> decide

theorem isQuoteC_lc_congr {c d : Char} (h : lowerC c = lowerC d) :
    isQuoteC c = isQuoteC d := by
  have key : ∀ a b : Char, lowerC a = lowerC b → isQuoteC a = true →
      isQuoteC b = true := by
    intro a b hab ha
    have h1 : lowerC a = a := isQuoteC_lowerC_self ha
    have h2 : a.toNat < 65 := by
      simp only [isQuoteC, decide_eq_true_eq] at ha
      rcases ha with ha | ha <;> subst ha <;> decide
    have h3 : lowerC b = a := by rw [← hab, h1]
    have h4 : b = a := lowerC_eq_of_lt65 h2 h3
    rw [h4]; exact ha
  by_cases hc : isQuoteC c = true
  · rw [hc, key c d h hc]
  · by_cases hd : isQuoteC d = true
    · exact absurd (key d c h.symm hd) hc
    · simp only [Bool.not_eq_true] at hc hd; rw [hc, hd]

theorem lc_eq_of_quote {c q : Char} (hq : isQuoteC q = true)
    (h : lowerC c = q) : c = q := by
  have h2 : q.toNat < 65 := by
    simp only [isQuoteC, decide_eq_true_eq] at hq
    rcases hq with hq | hq <;> subst hq <;> decide
  exact lowerC_eq_of_lt65 h2 h

theorem hash_lc_congr {c d : Char} (h : lowerC c = lowerC d) :
    (c = '#') = (d = '#') := by
  have key : ∀ a b : Char, lowerC a = lowerC b → a = '#' → b = '#' := by
    intro a b hab ha
    subst ha
    have h0 : lowerC '#' = '#' := by decide
    rw [h0] at hab
    exact lowerC_eq_of_lt65 (by decide) hab.symm
  by_cases hc : c = '#'
  · simp [hc, key c d h hc]
  · by_cases hd : d = '#'
    · exact absurd (key d c h.symm hd) hc
    · simp [hc, hd]

theorem ws_lc_congr {c d : Char} (h : lowerC c = lowerC d) :
    isWsJs c = isWsJs d := by
  have key : ∀ a b : Char, lowerC a = lowerC b → isWsJs a = true →
      isWsJs b = true := by
    intro a b hab ha
    have hlt : a.toNat < 65 ∧ lowerC a = a := by
      simp only [isWsJs, decide_eq_true_eq] at ha
      rcases ha with h1 | h1 | h1 | h1 | h1 | h1 <;> subst h1 <;>
        exact ⟨by decide, by decide⟩
    have h3 : lowerC b = a := by rw [← hab, hlt.2]
    have h4 : b = a := lowerC_eq_of_lt65 hlt.1 h3
    rw [h4]; exact ha
  by_cases hc : isWsJs c = true
  · rw [hc, key c d h hc]
  · by_cases hd : isWsJs d = true
    · exact absurd (key d c h.symm hd) hc
    · simp only [Bool.not_eq_true] at hc hd; rw [hc, hd]

theorem urlOkC_lc_congr {c d : Char} (h : lowerC c = lowerC d) :
    urlOkC c = urlOkC d := by
  simp only [urlOkC]
  rw [decide_eq_decide, isQuoteC_lc_congr h, ws_lc_congr h, hash_lc_congr h]

theorem hashOkC_lc_congr {c d : Char} (h : lowerC c = lowerC d) :
    hashOkC c = hashOkC d := by
  simp only [hashOkC]
  rw [decide_eq_decide, isQuoteC_lc_congr h]



/-! List-scanning support lemmas. -/

theorem takeWhile_all_append {p : Char → Bool} {a : List Char} (b : List Char)
    (h : ∀ c ∈ a, p c = true) : (a ++ b).takeWhile p = a ++ b.takeWhile p := by
  induction a with
  | nil => simp
  | cons x a ih =>
    have hx := h x (by simp)
    simp only [List.cons_append, List.takeWhile_cons, hx, if_true]
    rw [ih fun c hc => h c (by simp [hc])]

theorem dropWhile_all_append {p : Char → Bool} {a : List Char} (b : List Char)
    (h : ∀ c ∈ a, p c = true) : (a ++ b).dropWhile p = b.dropWhile p := by
  induction a with
  | nil => simp
  | cons x a ih =>
    have hx := h x (by simp)
    simp only [List.cons_append, List.dropWhile_cons, hx, if_true]
    exact ih fun c hc => h c (by simp [hc])

theorem matchCI_of_map {a pat : List Char} (h : a.map lowerC = pat)
    (t : List Char) : matchCI pat (a ++ t) = some (a, t) := by
  induction a generalizing pat with
  | nil => simp at h; subst h; simp [matchCI]
  | cons c a' ih =>
    cases pat with
    | nil => simp at h
    | cons p ps =>
      simp only [List.map_cons, List.cons.injEq] at h
      simp [matchCI, h.1, ih h.2]

theorem http_split : ("http://".toList : List Char) =
    "http".toList ++ "://".toList := by decide

theorem https_split : ("https://".toList : List Char) =
    "http".toList ++ 's' :: "://".toList := by decide

theorem matchScheme_of_map {sch : List Char}
    (h : sch.map lowerC = "http://".toList ∨
         sch.map lowerC = "https://".toList)
    (t : List Char) : matchScheme (sch ++ t) = some (sch, t) := by
  have hsplit : sch = sch.take 4 ++ sch.drop 4 :=
    (List.take_append_drop 4 sch).symm
  rcases h with h | h
  · have h1 : (sch.take 4).map lowerC = "http".toList := by
      rw [List.map_take, h]; decide
    have h2 : (sch.drop 4).map lowerC = [':', '/', '/'] := by
      rw [List.map_drop, h]; decide
    cases hd : sch.drop 4 with
    | nil => rw [hd] at h2; simp at h2
    | cons c a2 =>
      rw [hd] at h2
      simp only [List.map_cons, List.cons.injEq] at h2
      have hc : ¬ lowerC c = 's' := by rw [h2.1]; decide
      unfold matchScheme
      rw [show sch ++ t = sch.take 4 ++ ((c :: a2) ++ t) by
        rw [← hd, ← List.append_assoc, ← hsplit]]
      rw [matchCI_of_map h1]
      simp only [List.cons_append, hc, if_false]
      rw [show c :: (a2 ++ t) = (c :: a2) ++ t from rfl,
        matchCI_of_map (show (c :: a2).map lowerC = "://".toList by
          rw [List.map_cons, h2.1, h2.2]; decide)]
      simp only
      rw [← hd, ← hsplit]
  · have h1 : (sch.take 4).map lowerC = "http".toList := by
      rw [List.map_take, h]; decide
    have h2 : (sch.drop 4).map lowerC = 's' :: "://".toList := by
      rw [List.map_drop, h]; decide
    cases hd : sch.drop 4 with
    | nil => rw [hd] at h2; simp at h2
    | cons c a2 =>
      rw [hd] at h2
      simp only [List.map_cons, List.cons.injEq] at h2
      unfold matchScheme
      rw [show sch ++ t = sch.take 4 ++ ((c :: a2) ++ t) by
        rw [← hd, ← List.append_assoc, ← hsplit]]
      rw [matchCI_of_map h1]
      simp only [List.cons_append, h2.1, if_true]
      rw [matchCI_of_map h2.2]
      simp only
      rw [← hd, ← hsplit]

theorem matchScheme_spec {cs sch r : List Char}
    (h : matchScheme cs = some (sch, r)) :
    cs = sch ++ r ∧ (sch.map lowerC = "http://".toList ∨
      sch.map lowerC = "https://".toList) := by
  unfold matchScheme at h
  cases hm : matchCI "http".toList cs with
  | none => rw [hm] at h; exact Option.noConfusion h
  | some pr =>
    obtain ⟨h4, r1⟩ := pr
    rw [hm] at h
    simp only at h
    obtain ⟨hcs, hmap⟩ := matchCI_spec _ _ _ _ hm
    cases r1 with
    | nil => exact Option.noConfusion h
    | cons c r' =>
      simp only at h
      split at h
      · rename_i hs
        cases hm2 : matchCI "://".toList r' with
        | none => rw [hm2] at h; exact Option.noConfusion h
        | some pr2 =>
          obtain ⟨sl, rr⟩ := pr2
          rw [hm2] at h
          simp only at h
          obtain ⟨hr', hmap2⟩ := matchCI_spec _ _ _ _ hm2
          cases h
          refine ⟨?_, Or.inr ?_⟩
          · rw [hcs, hr']; simp
          · rw [List.map_append, List.map_cons, hmap, hmap2, hs]; decide
      · cases hm2 : matchCI "://".toList (c :: r') with
        | none => rw [hm2] at h; exact Option.noConfusion h
        | some pr2 =>
          obtain ⟨sl, rr⟩ := pr2
          rw [hm2] at h
          simp only at h
          obtain ⟨hr', hmap2⟩ := matchCI_spec _ _ _ _ hm2
          cases h
          refine ⟨?_, Or.inl ?_⟩
          · rw [hcs, hr']; simp
          · rw [List.map_append, hmap, hmap2]; decide


/-- Inversion: every successful `href` match decomposes the input as
`full ++ rest` with `full` of the documented shape. -/
theorem tryHrefMatch_spec {cs : List Char} {m : HrefMatch}
    (h : tryHrefMatch cs = some m) :
    cs = m.full ++ m.rest ∧ HrefMatchShape m := by
  unfold tryHrefMatch at h
  cases hm : matchCI "href=".toList cs with
  | none => rw [hm] at h; exact Option.noConfusion h
  | some pr =>
    obtain ⟨h5, r1⟩ := pr
    rw [hm] at h
    simp only at h
    obtain ⟨hcs, hmap5⟩ := matchCI_spec _ _ _ _ hm
    cases r1 with
    | nil => exact Option.noConfusion h
    | cons q r2 =>
      simp only at h
      split at h
      · rename_i hq
        cases hsch : matchScheme r2 with
        | none => rw [hsch] at h; exact Option.noConfusion h
        | some pr2 =>
          obtain ⟨sch, r3⟩ := pr2
          rw [hsch] at h
          simp only at h
          obtain ⟨hr2, hschmap⟩ := matchScheme_spec hsch
          split at h
          · exact Option.noConfusion h
          · rename_i hrun
            have hrunne : r3.takeWhile urlOkC ≠ [] := by
              intro hx; rw [hx] at hrun; exact hrun rfl
            have hrunok : ∀ c ∈ r3.takeWhile urlOkC, urlOkC c = true :=
              fun c hc => List.mem_takeWhile_imp hc
            have hr3 : r3.takeWhile urlOkC ++ r3.dropWhile urlOkC = r3 :=
              List.takeWhile_append_dropWhile _ _
            cases hr4 : r3.dropWhile urlOkC with
            | nil => rw [hr4] at h; exact Option.noConfusion h
            | cons c r5 =>
              rw [hr4] at h
              simp only at h
              split at h
              · rename_i hhash
                subst hhash
                have hhrok : ∀ x ∈ r5.takeWhile hashOkC, hashOkC x = true :=
                  fun x hx => List.mem_takeWhile_imp hx
                have hr5 : r5.takeWhile hashOkC ++ r5.dropWhile hashOkC = r5 :=
                  List.takeWhile_append_dropWhile _ _
                cases hr6 : r5.dropWhile hashOkC with
                | nil => rw [hr6] at h; exact Option.noConfusion h
                | cons c2 r7 =>
                  rw [hr6] at h
                  simp only at h
                  split at h
                  · rename_i hc2
                    subst hc2
                    cases h
                    constructor
                    · rw [hcs, hr2]
                      conv_lhs => rw [← hr3, hr4, ← hr5, hr6]
                      simp [List.append_assoc]
                    · refine ⟨h5, sch, r3.takeWhile urlOkC,
                        '#' :: r5.takeWhile hashOkC, by simp, hmap5, hq, rfl,
                        hschmap, hrunne, hrunok, Or.inr ⟨r5.takeWhile hashOkC,
                        rfl, rfl, hhrok⟩⟩
                  · exact Option.noConfusion h
              · rename_i hhash
                split at h
                · rename_i hcq
                  subst hcq
                  cases h
                  constructor
                  · rw [hcs, hr2]
                    conv_lhs => rw [← hr3, hr4]
                    simp [List.append_assoc]
                  · exact ⟨h5, sch, r3.takeWhile urlOkC, [], by simp, hmap5,
                      hq, rfl, hschmap, hrunne, hrunok, Or.inl ⟨rfl, rfl⟩⟩
                · exact Option.noConfusion h
      · exact Option.noConfusion h


/-- A quote character is not a URL-run character. -/
theorem urlOkC_quote_false {q : Char} (hq : isQuoteC q = true) :
    urlOkC q = false := by
  simp [urlOkC, hq]

/-- A quote character is not a fragment-run character. -/
theorem hashOkC_quote_false {q : Char} (hq : isQuoteC q = true) :
    hashOkC q = false := by
  simp [hashOkC, hq]

theorem quote_ne_hashchar {q : Char} (hq : isQuoteC q = true) : ¬ (q = '#') := by
  simp only [isQuoteC, decide_eq_true_eq] at hq
  rcases hq with h | h <;> subst h <;> decide

/-- Construction: a well-shaped fragment-less `href` text followed by any
tail parses to exactly that match. -/
theorem tryHrefMatch_construct_nohash {h5 sch run : List Char} {q : Char}
    (hmap5 : h5.map lowerC = "href=".toList)
    (hq : isQuoteC q = true)
    (hsch : sch.map lowerC = "http://".toList ∨
      sch.map lowerC = "https://".toList)
    (hrun : run ≠ []) (hrunok : ∀ c ∈ run, urlOkC c = true)
    (t : List Char) :
    tryHrefMatch (h5 ++ q :: (sch ++ (run ++ (q :: t)))) =
      some ⟨h5 ++ q :: (sch ++ run ++ [q]), q, sch ++ run, none, t⟩ := by
  unfold tryHrefMatch
  rw [matchCI_of_map hmap5]
  simp only [hq, if_true]
  rw [matchScheme_of_map hsch]
  simp only
  have hqUrl : urlOkC q = false := urlOkC_quote_false hq
  have ht : (run ++ (q :: t)).takeWhile urlOkC = run := by
    rw [takeWhile_all_append _ hrunok]
    simp [List.takeWhile_cons, hqUrl]
  have hd : (run ++ (q :: t)).dropWhile urlOkC = q :: t := by
    rw [dropWhile_all_append _ hrunok]
    simp [List.dropWhile_cons, hqUrl]
  rw [ht, hd]
  have hne : run.isEmpty = false := by
    cases run with
    | nil => exact absurd rfl hrun
    | cons a l => rfl
  simp only [hne, Bool.false_eq_true, if_false]
  have hqh : ¬ (q = '#') := quote_ne_hashchar hq
  simp only [hqh, if_false, if_pos rfl]
  simp

/-- Construction: a well-shaped `href` text that carries a fragment
parses to exactly that match. -/
theorem tryHrefMatch_construct_hash {h5 sch run hr : List Char} {q : Char}
    (hmap5 : h5.map lowerC = "href=".toList)
    (hq : isQuoteC q = true)
    (hsch : sch.map lowerC = "http://".toList ∨
      sch.map lowerC = "https://".toList)
    (hrun : run ≠ []) (hrunok : ∀ c ∈ run, urlOkC c = true)
    (hhr : ∀ c ∈ hr, hashOkC c = true)
    (t : List Char) :
    tryHrefMatch (h5 ++ q :: (sch ++ (run ++ ('#' :: (hr ++ (q :: t)))))) =
      some ⟨h5 ++ q :: (sch ++ run ++ ('#' :: hr) ++ [q]), q, sch ++ run,
        some ('#' :: hr), t⟩ := by
  unfold tryHrefMatch
  rw [matchCI_of_map hmap5]
  simp only [hq, if_true]
  rw [matchScheme_of_map hsch]
  simp only
  have hhUrl : urlOkC '#' = false := by decide
  have ht : (run ++ ('#' :: (hr ++ (q :: t)))).takeWhile urlOkC = run := by
    rw [takeWhile_all_append _ hrunok]
    simp [List.takeWhile_cons, hhUrl]
  have hd : (run ++ ('#' :: (hr ++ (q :: t)))).dropWhile urlOkC =
      '#' :: (hr ++ (q :: t)) := by
    rw [dropWhile_all_append _ hrunok]
    simp [List.dropWhile_cons, hhUrl]
  rw [ht, hd]
  have hne : run.isEmpty = false := by
    cases run with
    | nil => exact absurd rfl hrun
    | cons a l => rfl
  simp only [hne, Bool.false_eq_true, if_false, if_true]
  have hqHash : hashOkC q = false := hashOkC_quote_false hq
  have ht2 : (hr ++ (q :: t)).takeWhile hashOkC = hr := by
    rw [takeWhile_all_append _ hhr]
    simp [List.takeWhile_cons, hqHash]
  have hd2 : (hr ++ (q :: t)).dropWhile hashOkC = q :: t := by
    rw [dropWhile_all_append _ hhr]
    simp [List.dropWhile_cons, hqHash]
  rw [ht2, hd2]
  simp


/-- The parse of a match is self-delimiting: the matched text followed by
any tail parses to the same match. -/
theorem tryHrefMatch_stable {cs : List Char} {m : HrefMatch}
    (h : tryHrefMatch cs = some m) (t : List Char) :
    tryHrefMatch (m.full ++ t) =
      some ⟨m.full, m.quote, m.url, m.hash, t⟩ := by
  obtain ⟨-, hsh⟩ := tryHrefMatch_spec h
  obtain ⟨h5, sch, run, hp, hfull, hmap5, hq, hurl, hsch, hrun, hrunok,
    hcase⟩ := hsh
  rcases hcase with ⟨hnone, hpe⟩ | ⟨hr, hsome, hpe, hhrok⟩
  · subst hpe
    rw [hfull, hurl, hnone]
    rw [show (h5 ++ m.quote :: (sch ++ run ++ [] ++ [m.quote])) ++ t =
        h5 ++ m.quote :: (sch ++ (run ++ (m.quote :: t))) by simp]
    rw [tryHrefMatch_construct_nohash hmap5 hq hsch hrun hrunok t]
    simp
  · subst hpe
    rw [hfull, hurl, hsome]
    rw [show (h5 ++ m.quote :: (sch ++ run ++ '#' :: hr ++ [m.quote])) ++ t =
        h5 ++ m.quote :: (sch ++ (run ++ ('#' :: (hr ++ (m.quote :: t)))))
        by simp]
    rw [tryHrefMatch_construct_hash hmap5 hq hsch hrun hrunok hhrok t]

/-- The replacement emitted for a fragment-less match re-parses as a
match that carries the `#email` fragment and consumes exactly the
replacement text (the recipient address contains no quote
characters). -/
theorem renderNoHash_matches {cs : List Char} {m : HrefMatch}
    {email : String}
    (hemail : ∀ c ∈ email.toList, isQuoteC c = false)
    (h : tryHrefMatch cs = some m) (t : List Char) :
    tryHrefMatch (renderNoHash email m ++ t) =
      some ⟨renderNoHash email m, m.quote, m.url,
        some ('#' :: email.toList), t⟩ := by
  obtain ⟨-, hsh⟩ := tryHrefMatch_spec h
  obtain ⟨h5, sch, run, hp, hfull, hmap5, hq, hurl, hsch, hrun, hrunok,
    hcase⟩ := hsh
  have hmap5' : ("href=".toList : List Char).map lowerC = "href=".toList := by
    decide
  have hhrok : ∀ c ∈ email.toList, hashOkC c = true := by
    intro c hc
    simp [hashOkC, hemail c hc]
  unfold renderNoHash
  rw [hurl]
  rw [show ("href=".toList ++ m.quote ::
      (sch ++ run ++ '#' :: email.toList ++ [m.quote])) ++ t =
      "href=".toList ++ m.quote ::
        (sch ++ (run ++ ('#' :: (email.toList ++ (m.quote :: t))))) by simp]
  rw [tryHrefMatch_construct_hash hmap5' hq hsch hrun hrunok hhrok t]


/-! Scan-level equations for `hashLinksScan` (eliminating the fuel). -/

theorem hashLinksScanF_nil (email : String) (fuel : Nat) :
    hashLinksScanF email fuel [] = [] := by
  cases fuel <;> rfl

theorem hashLinksScanF_cons (email : String) (fuel : Nat) (c : Char)
    (cs : List Char) :
    hashLinksScanF email (fuel + 1) (c :: cs) =
      match tryHrefMatch (c :: cs) with
      | some m =>
        (match m.hash with
         | some _ => m.full
         | none => renderNoHash email m) ++
          hashLinksScanF email fuel (cs.drop (m.full.length - 1))
      | none => c :: hashLinksScanF email fuel cs := rfl

theorem hashLinksScanF_fuel_irrel (email : String) :
    ∀ (f1 f2 : Nat) (cs : List Char), cs.length ≤ f1 → cs.length ≤ f2 →
      hashLinksScanF email f1 cs = hashLinksScanF email f2 cs := by
  intro f1
  induction f1 with
  | zero =>
    intro f2 cs h1 h2
    have : cs = [] := List.eq_nil_of_length_eq_zero (Nat.le_zero.mp h1)
    subst this
    rw [hashLinksScanF_nil, hashLinksScanF_nil]
  | succ n ih =>
    intro f2 cs h1 h2
    cases cs with
    | nil => rw [hashLinksScanF_nil, hashLinksScanF_nil]
    | cons c cs' =>
      cases f2 with
      | zero => simp at h2
      | succ n2 =>
        simp only [List.length_cons, Nat.succ_le_succ_iff] at h1 h2
        rw [hashLinksScanF_cons, hashLinksScanF_cons]
        cases hm : tryHrefMatch (c :: cs') with
        | none =>
          simp only
          rw [ih n2 cs' h1 h2]
        | some m =>
          simp only
          congr 1
          have hdl := List.length_drop (m.full.length - 1) cs'
          exact ih n2 _ (by omega) (by omega)

theorem hashLinksScan_cons_none {c : Char} {cs : List Char} (email : String)
    (h : tryHrefMatch (c :: cs) = none) :
    hashLinksScan email (c :: cs) = c :: hashLinksScan email cs := by
  show hashLinksScanF email (cs.length + 1) (c :: cs) =
    c :: hashLinksScanF email cs.length cs
  rw [hashLinksScanF_cons, h]

/-- The matched text is never empty. -/
theorem hrefMatch_full_ne_nil {m : HrefMatch} (hsh : HrefMatchShape m) :
    m.full ≠ [] := by
  obtain ⟨h5, sch, run, hp, hfull, hmap5, -⟩ := hsh
  rw [hfull]
  intro hx
  have hlen := congrArg List.length hx
  simp at hlen

theorem hashLinksScan_cons_some {ls : List Char} {m : HrefMatch}
    (email : String) (h : tryHrefMatch ls = some m) :
    hashLinksScan email ls =
      (match m.hash with
       | some _ => m.full
       | none => renderNoHash email m) ++ hashLinksScan email m.rest := by
  obtain ⟨hdec, hsh⟩ := tryHrefMatch_spec h
  have hne := hrefMatch_full_ne_nil hsh
  cases ls with
  | nil => exact absurd (List.append_eq_nil.mp hdec.symm).1 hne
  | cons c cs =>
    cases hfull : m.full with
    | nil => exact absurd hfull hne
    | cons fc fu =>
      rw [hfull] at hdec
      have hc : fc = c := by
        have := congrArg (fun l => l.headD ' ') hdec
        simpa using this.symm
      subst hc
      have hcs : cs = fu ++ m.rest := by
        have := congrArg List.tail hdec
        simpa using this
      show hashLinksScanF email (cs.length + 1) (fc :: cs) = _
      rw [hashLinksScanF_cons, h]
      simp only
      congr 1
      · rw [hfull]
      · have hdropeq : cs.drop (m.full.length - 1) = m.rest := by
          rw [hfull, hcs]
          simp only [List.length_cons, Nat.add_sub_cancel]
          exact List.drop_left fu m.rest
        rw [hdropeq]
        have hrl : m.rest.length ≤ cs.length := by
          have := congrArg List.length hcs
          simp at this
          omega
        exact hashLinksScanF_fuel_irrel email cs.length m.rest.length m.rest
          hrl (le_refl _)


/-! Case-variation invariance of the parser. -/

theorem lc_partner {l1 l2 : List Char}
    (h : l1.map lowerC = l2.map lowerC) :
    ∀ c ∈ l2, ∃ d ∈ l1, lowerC d = lowerC c := by
  induction l2 generalizing l1 with
  | nil => simp
  | cons x l2' ih =>
    cases l1 with
    | nil => simp at h
    | cons y l1' =>
      simp only [List.map_cons, List.cons.injEq] at h
      intro c hc
      rcases List.mem_cons.mp hc with rfl | hc'
      · exact ⟨y, by simp, h.1⟩
      · obtain ⟨d, hd, hdc⟩ := ih h.2 c hc'
        exact ⟨d, by simp [hd], hdc⟩

theorem lc_append_split {x y b : List Char}
    (h : (x ++ y).map lowerC = b.map lowerC) :
    ∃ bx byy, b = bx ++ byy ∧ x.map lowerC = bx.map lowerC ∧
      y.map lowerC = byy.map lowerC := by
  refine ⟨b.take x.length, b.drop x.length,
    (List.take_append_drop _ _).symm, ?_, ?_⟩
  · rw [List.map_take, ← h, List.map_append]
    have hx : (x.map lowerC).length = x.length := by simp
    rw [← hx, List.take_left]
  · rw [List.map_drop, ← h, List.map_append]
    have hx : (x.map lowerC).length = x.length := by simp
    rw [← hx, List.drop_left]

theorem lc_cons_split {x : Char} {y b : List Char}
    (h : (x :: y).map lowerC = b.map lowerC) :
    ∃ bx byy, b = bx :: byy ∧ lowerC x = lowerC bx ∧
      y.map lowerC = byy.map lowerC := by
  cases b with
  | nil => simp at h
  | cons bx byy =>
    simp only [List.map_cons, List.cons.injEq] at h
    exact ⟨bx, byy, rfl, h.1, h.2⟩

/-- A successful parse is preserved under ASCII case variation of the
input. -/
theorem tryHrefMatch_lc {a b : List Char}
    (hlc : a.map lowerC = b.map lowerC) {m : HrefMatch}
    (h : tryHrefMatch a = some m) :
    ∃ m2, tryHrefMatch b = some m2 ∧ m2.full.length = m.full.length := by
  obtain ⟨hdec, hsh⟩ := tryHrefMatch_spec h
  obtain ⟨h5, sch, run, hp0, hfull, hmap5, hq, hurl, hsch, hrun, hrunok,
    hcase⟩ := hsh
  have ha : a = h5 ++ m.quote ::
      (sch ++ (run ++ (hp0 ++ (m.quote :: m.rest)))) := by
    rw [hdec, hfull, hurl]
    simp [List.append_assoc]
  rw [ha] at hlc
  obtain ⟨b5, rest1, hb, hlc5, hlc1⟩ := lc_append_split hlc
  obtain ⟨bq, rest2, hb1, hlcq, hlc2⟩ := lc_cons_split hlc1
  obtain ⟨bsch, rest3, hb2, hlcsch, hlc3⟩ := lc_append_split hlc2
  obtain ⟨brun, rest4, hb3, hlcrun, hlc4⟩ := lc_append_split hlc3
  obtain ⟨bhp, rest5, hb4, hlchp, hlc5r⟩ := lc_append_split hlc4
  obtain ⟨bq2, brest, hb5, hlcq2, hlcrest⟩ := lc_cons_split hlc5r
  have hqq : lowerC m.quote = m.quote := isQuoteC_lowerC_self hq
  have hbq : bq = m.quote :=
    lc_eq_of_quote hq (by rw [← hlcq, hqq])
  have hbq2 : bq2 = m.quote :=
    lc_eq_of_quote hq (by rw [← hlcq2, hqq])
  have hb5map : b5.map lowerC = "href=".toList := by rw [← hlc5, hmap5]
  have hbschmap : bsch.map lowerC = "http://".toList ∨
      bsch.map lowerC = "https://".toList := by
    rcases hsch with hx | hx
    · exact Or.inl (by rw [← hlcsch, hx])
    · exact Or.inr (by rw [← hlcsch, hx])
  have hlenrun : run.length = brun.length := by
    have := congrArg List.length hlcrun
    simpa using this
  have hbrunne : brun ≠ [] := by
    intro hx
    rw [hx] at hlenrun
    simp at hlenrun
    exact hrun hlenrun
  have hbrunok : ∀ c ∈ brun, urlOkC c = true := by
    intro c hc
    obtain ⟨d, hd, hdc⟩ := lc_partner hlcrun c hc
    rw [← urlOkC_lc_congr hdc]
    exact hrunok d hd
  rcases hcase with ⟨hnone, hpe⟩ | ⟨hr, hsome, hpe, hok⟩
  · subst hpe
    have hbhp : bhp = [] := by
      simp only [List.map_nil] at hlchp
      exact (List.map_eq_nil_iff.mp hlchp.symm)
    have hlen5 : h5.length = b5.length := by
      have := congrArg List.length hlc5
      simpa using this
    have hlensch : sch.length = bsch.length := by
      have := congrArg List.length hlcsch
      simpa using this
    refine ⟨⟨b5 ++ m.quote :: (bsch ++ brun ++ [m.quote]), m.quote,
      bsch ++ brun, none, brest⟩, ?_, ?_⟩
    · rw [hb, hb1, hb2, hb3, hb4, hb5, hbhp, hbq, hbq2]
      simp only [List.nil_append]
      exact tryHrefMatch_construct_nohash hb5map hq hbschmap hbrunne hbrunok
        brest
    · rw [hfull, hurl]
      simp
      omega
  · subst hpe
    obtain ⟨bh1, bhr, hbhp, hlch1, hlchr⟩ := lc_cons_split hlchp
    have hbh1 : bh1 = '#' := by
      have h0 : lowerC '#' = '#' := by decide
      rw [h0] at hlch1
      exact lowerC_eq_of_lt65 (by decide) hlch1.symm
    have hbhrok : ∀ c ∈ bhr, hashOkC c = true := by
      intro c hc
      obtain ⟨d, hd, hdc⟩ := lc_partner hlchr c hc
      rw [← hashOkC_lc_congr hdc]
      exact hok d hd
    have hlen5 : h5.length = b5.length := by
      have := congrArg List.length hlc5
      simpa using this
    have hlensch : sch.length = bsch.length := by
      have := congrArg List.length hlcsch
      simpa using this
    have hlenhr : hr.length = bhr.length := by
      have := congrArg List.length hlchr
      simpa using this
    refine ⟨⟨b5 ++ m.quote :: (bsch ++ brun ++ ('#' :: bhr) ++ [m.quote]),
      m.quote, bsch ++ brun, some ('#' :: bhr), brest⟩, ?_, ?_⟩
    · rw [hb, hb1, hb2, hb3, hb4, hb5, hbhp, hbh1, hbq, hbq2]
      simp only [List.cons_append]
      exact tryHrefMatch_construct_hash hb5map hq hbschmap hbrunne hbrunok
        hbhrok brest
    · rw [hfull, hurl]
      simp
      omega


/-! Replacing a fragment-less match by its rendered form cannot create a
match at an earlier position: the rendered text differs from the original
match only in the case of `href=` up to the closing quote, and any longer
match would have to swallow the opening quote strictly inside its
quote-free interior. -/

theorem quote_free_of_lc_lit {l L : List Char} (h : l.map lowerC = L)
    (hL : ∀ c ∈ L, isQuoteC c = false) : ∀ c ∈ l, isQuoteC c = false := by
  intro c hc
  cases hqc : isQuoteC c with
  | false => rfl
  | true =>
    have hm : lowerC c ∈ L := by
      rw [← h]
      exact List.mem_map_of_mem lowerC hc
    rw [isQuoteC_lowerC_self hqc] at hm
    have hf := hL c hm
    rw [hqc] at hf
    exact Bool.noConfusion hf

theorem tryHrefMatch_none_render {p r cs : List Char} (email : String)
    {m : HrefMatch} (hp : p ≠ [])
    (h : tryHrefMatch cs = some m) (hh : m.hash = none)
    (hnone : tryHrefMatch (p ++ (m.full ++ r)) = none) :
    tryHrefMatch (p ++ (renderNoHash email m ++ r)) = none := by
  obtain ⟨-, hsh⟩ := tryHrefMatch_spec h
  obtain ⟨h5, sch, run, hp0, hfull, hmap5, hq, hurl, hsch, hrun, hrunok,
    hcase⟩ := hsh
  rcases hcase with ⟨-, hpe⟩ | ⟨hr, hsome, -, -⟩
  swap
  · rw [hh] at hsome
    exact Option.noConfusion hsome
  subst hpe
  have hlh5 : h5.length = 5 := by
    have := congrArg List.length hmap5
    simpa using this
  have hlp : 1 ≤ p.length := List.length_pos.mpr hp
  have hH5len : ("href=".toList : List Char).length = 5 := by decide
  have hlurl : 8 ≤ m.url.length := by
    have hlsch : sch.length = 7 ∨ sch.length = 8 := by
      rcases hsch with hx | hx
      · exact Or.inl (by have := congrArg List.length hx; simpa using this)
      · exact Or.inr (by have := congrArg List.length hx; simpa using this)
    have hlrun : 1 ≤ run.length := List.length_pos.mpr hrun
    rw [hurl]
    simp only [List.length_append]
    omega
  have hY : p ++ (renderNoHash email m ++ r) =
      (p ++ ("href=".toList ++ (m.quote :: m.url))) ++
        ('#' :: (email.toList ++ (m.quote :: r))) := by
    unfold renderNoHash
    simp
  cases hopt : tryHrefMatch (p ++ (renderNoHash email m ++ r)) with
  | none => rfl
  | some m2 =>
    exfalso
    obtain ⟨hdec2, hsh2⟩ := tryHrefMatch_spec hopt
    obtain ⟨A, sch2, run2, hp2, hfull2, hmapA, hq2, hurl2, hsch2, hrunne2,
      hrunok2, hcase2⟩ := hsh2
    have hlA : A.length = 5 := by
      have := congrArg List.length hmapA
      simpa using this
    rcases le_or_lt m2.full.length
        (p ++ ("href=".toList ++ (m.quote :: m.url))).length with hle | hgt
    · -- the rendered match lies within the case-variant prefix: transfer it
      -- back onto the original text and contradict hnone
      have htake : m2.full =
          (p ++ ("href=".toList ++ (m.quote :: m.url))).take
            m2.full.length := by
        have h1 : (m2.full ++ m2.rest).take m2.full.length = m2.full :=
          List.take_left _ _
        rw [← hdec2, hY, List.take_append_eq_append_take,
          Nat.sub_eq_zero_of_le hle] at h1
        simp only [List.take_zero, List.append_nil] at h1
        exact h1.symm
      have hX'lc : (p ++ ("href=".toList ++ (m.quote :: m.url))).map lowerC =
          (p ++ (h5 ++ (m.quote :: m.url))).map lowerC := by
        simp only [List.map_append, List.map_cons]
        rw [hmap5]
        rw [show ("href=".toList : List Char).map lowerC = "href=".toList
          from by decide]
      have hX'len : m2.full.length ≤
          (p ++ (h5 ++ (m.quote :: m.url))).length := by
        have h2 : (p ++ (h5 ++ (m.quote :: m.url))).length =
            (p ++ ("href=".toList ++ (m.quote :: m.url))).length := by
          simp only [List.length_append, List.length_cons, hlh5, hH5len]
        rw [h2]
        exact hle
      have hblc : (p ++ (renderNoHash email m ++ r)).map lowerC =
          ((p ++ (h5 ++ (m.quote :: m.url))).take m2.full.length ++
            m2.rest).map lowerC := by
        conv_lhs => rw [hdec2]
        rw [List.map_append, List.map_append]
        congr 1
        conv_lhs => rw [htake]
        rw [List.map_take, List.map_take, hX'lc]
      obtain ⟨m3, hm3, hm3len⟩ := tryHrefMatch_lc hblc hopt
      obtain ⟨hdec3, -⟩ := tryHrefMatch_spec hm3
      have hm3full : m3.full =
          (p ++ (h5 ++ (m.quote :: m.url))).take m2.full.length := by
        have h1 : (m3.full ++ m3.rest).take m3.full.length = m3.full :=
          List.take_left _ _
        rw [← hdec3, hm3len, List.take_append_eq_append_take] at h1
        have hlt : ((p ++ (h5 ++ (m.quote :: m.url))).take
            m2.full.length).length = m2.full.length := by
          simp only [List.length_take]
          omega
        rw [hlt, Nat.sub_self] at h1
        simp only [List.take_zero, List.append_nil, List.take_take,
          Nat.min_self] at h1
        exact h1.symm
      have hstab := tryHrefMatch_stable hm3
        ((p ++ (h5 ++ (m.quote :: m.url))).drop m2.full.length ++
          (m.quote :: r))
      rw [hm3full, ← List.append_assoc, List.take_append_drop] at hstab
      have hW : (p ++ (h5 ++ (m.quote :: m.url))) ++ (m.quote :: r) =
          p ++ (m.full ++ r) := by
        rw [hfull, hurl]
        simp
      rw [hW, hnone] at hstab
      exact Option.noConfusion hstab
    · -- a longer match would contain the opening quote strictly inside
      -- its quote-free interior
      have h1 : (m2.full ++ m2.rest).take m2.full.length = m2.full :=
        List.take_left _ _
      rw [← hdec2, hY, List.take_append_eq_append_take,
        List.take_of_length_le (Nat.le_of_lt hgt)] at h1
      obtain ⟨j, hj⟩ : ∃ j, m2.full.length -
          (p ++ ("href=".toList ++ (m.quote :: m.url))).length = j + 1 :=
        ⟨m2.full.length -
          (p ++ ("href=".toList ++ (m.quote :: m.url))).length - 1,
          by omega⟩
      rw [hj, List.take_succ_cons] at h1
      revert h1
      generalize (email.toList ++ (m.quote :: r)).take j = F
      intro h1
      have heq : (A ++ [m2.quote]) ++ ((m2.url ++ hp2) ++ [m2.quote]) =
          (p ++ "href=".toList) ++ (m.quote :: (m.url ++ '#' :: F)) := by
        simpa [List.append_assoc] using (h1.trans hfull2).symm
      have hqf : ∀ c ∈ m2.url ++ hp2, isQuoteC c = false := by
        intro c hc
        rcases List.mem_append.mp hc with hc1 | hc2
        · rw [hurl2] at hc1
          rcases List.mem_append.mp hc1 with hcs | hcr
          · rcases hsch2 with hx | hx
            · exact quote_free_of_lc_lit hx (by decide) c hcs
            · exact quote_free_of_lc_lit hx (by decide) c hcs
          · cases hqc : isQuoteC c with
            | false => rfl
            | true =>
              have hu := hrunok2 c hcr
              rw [urlOkC_quote_false hqc] at hu
              exact Bool.noConfusion hu
        · rcases hcase2 with ⟨-, hpe2⟩ | ⟨hr2, -, hpe2, hok2⟩
          · rw [hpe2] at hc2
            exact absurd hc2 (List.not_mem_nil c)
          · rw [hpe2] at hc2
            rcases List.mem_cons.mp hc2 with rfl | hcr2
            · decide
            · cases hqc : isQuoteC c with
              | false => rfl
              | true =>
                have hu := hok2 c hcr2
                rw [hashOkC_quote_false hqc] at hu
                exact Bool.noConfusion hu
      have hlA6 : (A ++ [m2.quote]).length = 6 := by
        simp [hlA]
      have h6le : 6 ≤ (p ++ "href=".toList).length := by
        simp only [List.length_append, hH5len]
        omega
      have hA6 : A ++ [m2.quote] = (p ++ "href=".toList).take 6 := by
        have t1 := congrArg (List.take 6) heq
        rw [← hlA6, List.take_left, hlA6, List.take_append_eq_append_take,
          Nat.sub_eq_zero_of_le h6le] at t1
        simp only [List.take_zero, List.append_nil] at t1
        exact t1
      have hsplitC : p ++ "href=".toList =
          (A ++ [m2.quote]) ++ (p ++ "href=".toList).drop 6 := by
        conv_lhs => rw [← List.take_append_drop 6 (p ++ "href=".toList)]
        rw [hA6]
      have heq2 : (m2.url ++ hp2) ++ [m2.quote] =
          (p ++ "href=".toList).drop 6 ++
            (m.quote :: (m.url ++ '#' :: F)) := by
        have hcomb : (A ++ [m2.quote]) ++ ((m2.url ++ hp2) ++ [m2.quote]) =
            (A ++ [m2.quote]) ++ ((p ++ "href=".toList).drop 6 ++
              (m.quote :: (m.url ++ '#' :: F))) := by
          rw [heq]
          rw [← List.append_assoc, ← hsplitC]
        exact List.append_cancel_left hcomb
      have hlen2 := congrArg List.length heq2
      simp [hH5len] at hlen2
      have hCle : ((p ++ "href=".toList).drop 6).length ≤
          (m2.url ++ hp2).length := by
        simp [hH5len]
        omega
      have hdr := congrArg
        (List.drop ((p ++ "href=".toList).drop 6).length) heq2
      rw [List.drop_append_eq_append_drop, Nat.sub_eq_zero_of_le hCle,
        List.drop_left] at hdr
      simp only [List.drop_zero] at hdr
      cases hbd : (m2.url ++ hp2).drop
          ((p ++ "href=".toList).drop 6).length with
      | nil =>
        rw [hbd] at hdr
        have hld := congrArg List.length hdr
        simp at hld
      | cons b0 bs =>
        rw [hbd] at hdr
        simp only [List.cons_append] at hdr
        have hb0 : b0 = m.quote := by
          injection hdr with hb0 hrest
        have hmem : b0 ∈ m2.url ++ hp2 := by
          have hmem0 : b0 ∈ (m2.url ++ hp2).drop
              ((p ++ "href=".toList).drop 6).length := by
            rw [hbd]
            exact List.mem_cons_self b0 bs
          exact List.drop_subset _ _ hmem0
        have hqb := hqf b0 hmem
        rw [hb0, hq] at hqb
        exact Bool.noConfusion hqb


/-- If no match starts at the head of `p ++ s`, running the scan over `s`
does not create one: each emitted block (verbatim text, verbatim match, or
rendered replacement) preserves the absence of a head match. -/
theorem scan_none_preserved (email : String) :
    ∀ n : Nat, ∀ s : List Char, s.length ≤ n → ∀ p : List Char,
      tryHrefMatch (p ++ s) = none →
      tryHrefMatch (p ++ hashLinksScan email s) = none := by
  intro n
  induction n with
  | zero =>
    intro s hs p hnone
    have hse : s = [] := List.length_eq_zero.mp (Nat.le_zero.mp hs)
    subst hse
    exact hnone
  | succ k ih =>
    intro s hs p hnone
    cases s with
    | nil => exact hnone
    | cons c cs =>
      cases hm : tryHrefMatch (c :: cs) with
      | none =>
        rw [hashLinksScan_cons_none email hm]
        have h' : tryHrefMatch ((p ++ [c]) ++ cs) = none := by
          rw [List.append_assoc]
          simpa using hnone
        have hlen : cs.length ≤ k := by
          simp only [List.length_cons] at hs
          omega
        have := ih cs hlen (p ++ [c]) h'
        rw [List.append_assoc] at this
        simpa using this
      | some m =>
        obtain ⟨hdec, hsh⟩ := tryHrefMatch_spec hm
        have hnef := hrefMatch_full_ne_nil hsh
        have hrl : m.rest.length ≤ k := by
          have hl := congrArg List.length hdec
          simp only [List.length_cons, List.length_append] at hl
          have hfl : 1 ≤ m.full.length := List.length_pos.mpr hnef
          simp only [List.length_cons] at hs
          omega
        rw [hashLinksScan_cons_some email hm]
        cases hh : m.hash with
        | some v =>
          simp only [hh]
          have h' : tryHrefMatch ((p ++ m.full) ++ m.rest) = none := by
            rw [List.append_assoc, ← hdec]
            exact hnone
          have := ih m.rest hrl (p ++ m.full) h'
          rw [List.append_assoc] at this
          exact this
        | none =>
          simp only [hh]
          have hpne : p ≠ [] := by
            intro hpe
            subst hpe
            rw [List.nil_append, hm] at hnone
            exact Option.noConfusion hnone
          have h' : tryHrefMatch (p ++ (m.full ++ m.rest)) = none := by
            rw [← hdec]
            exact hnone
          have hcrux := tryHrefMatch_none_render email hpne hm hh h'
          have h'' : tryHrefMatch
              ((p ++ renderNoHash email m) ++ m.rest) = none := by
            rw [List.append_assoc]
            exact hcrux
          have := ih m.rest hrl (p ++ renderNoHash email m) h''
          rw [List.append_assoc] at this
          exact this

/-- The scan is idempotent: with-fragment matches are re-emitted verbatim
and rendered replacements re-parse as with-fragment matches, so a second
pass changes nothing (the recipient address must be quote-free). -/
theorem hashLinksScan_idem (email : String)
    (hemail : ∀ c ∈ email.toList, isQuoteC c = false) :
    ∀ n : Nat, ∀ s : List Char, s.length ≤ n →
      hashLinksScan email (hashLinksScan email s) = hashLinksScan email s := by
  intro n
  induction n with
  | zero =>
    intro s hs
    have hse : s = [] := List.length_eq_zero.mp (Nat.le_zero.mp hs)
    subst hse
    rfl
  | succ k ih =>
    intro s hs
    cases s with
    | nil => rfl
    | cons c cs =>
      cases hm : tryHrefMatch (c :: cs) with
      | none =>
        rw [hashLinksScan_cons_none email hm]
        have hlen : cs.length ≤ k := by
          simp only [List.length_cons] at hs
          omega
        have hnone2 : tryHrefMatch ([c] ++ hashLinksScan email cs) = none := by
          refine scan_none_preserved email k cs hlen [c] ?_
          simpa using hm
        rw [List.singleton_append] at hnone2
        rw [hashLinksScan_cons_none email hnone2, ih cs hlen]
      | some m =>
        obtain ⟨hdec, hsh⟩ := tryHrefMatch_spec hm
        have hnef := hrefMatch_full_ne_nil hsh
        have hrl : m.rest.length ≤ k := by
          have hl := congrArg List.length hdec
          simp only [List.length_cons, List.length_append] at hl
          have hfl : 1 ≤ m.full.length := List.length_pos.mpr hnef
          simp only [List.length_cons] at hs
          omega
        rw [hashLinksScan_cons_some email hm]
        cases hh : m.hash with
        | some v =>
          simp only [hh]
          have hst := tryHrefMatch_stable hm (hashLinksScan email m.rest)
          rw [hashLinksScan_cons_some email hst]
          simp only [hh]
          rw [ih m.rest hrl]
        | none =>
          simp only [hh]
          have hrm := renderNoHash_matches hemail hm
            (hashLinksScan email m.rest)
          rw [hashLinksScan_cons_some email hrm]
          simp only []
          rw [ih m.rest hrl]


/-- C5: the link instrumentation of `addEmailHashToLinks` (route.ts
346-349) appends `#recipient` to every matched `href` whose value is an
absolute http(s) URL without a fragment, emits every matched `href` that
already carries a fragment byte-identically, and is idempotent: a second
application to its own output changes nothing, for every recipient
address free of quote characters. -/
theorem c5_link_instrumentation (email : String)
    (hemail : ∀ c ∈ email.toList, isQuoteC c = false) :
    (∀ c cs, tryHrefMatch (c :: cs) = none →
      hashLinksScan email (c :: cs) = c :: hashLinksScan email cs) ∧
    (∀ ls m, tryHrefMatch ls = some m → ∀ fr, m.hash = some fr →
      hashLinksScan email ls = m.full ++ hashLinksScan email m.rest) ∧
    (∀ ls m, tryHrefMatch ls = some m → m.hash = none →
      hashLinksScan email ls =
        ("href=".toList ++ m.quote ::
          (m.url ++ '#' :: email.toList ++ [m.quote])) ++
          hashLinksScan email m.rest) ∧
    (∀ html, addEmailHashToLinks (addEmailHashToLinks html email) email =
      addEmailHashToLinks html email) := by
  refine ⟨?_, ?_, ?_, ?_⟩
  · intro c cs hm
    exact hashLinksScan_cons_none email hm
  · intro ls m hm fr hh
    rw [hashLinksScan_cons_some email hm, hh]
  · intro ls m hm hh
    rw [hashLinksScan_cons_some email hm, hh]
    rfl
  · intro html
    unfold addEmailHashToLinks
    have hmk : (String.mk (hashLinksScan email html.toList)).toList =
        hashLinksScan email html.toList := rfl
    rw [hmk, hashLinksScan_idem email hemail html.toList.length
      html.toList (le_refl _)]

/-- Witness for C5 at a concrete recipient and document: the hypothesis
holds, a second application is the identity, and the single application
appends the fragment. -/
theorem c5_link_instrumentation_witness :
    (∀ c ∈ ("e@x.com" : String).toList, isQuoteC c = false) ∧
    addEmailHashToLinks (addEmailHashToLinks
        "<p><a href=\"https://example.com/x\">x</a></p>" "e@x.com")
        "e@x.com" =
      addEmailHashToLinks
        "<p><a href=\"https://example.com/x\">x</a></p>" "e@x.com" ∧
    addEmailHashToLinks
        "<p><a href=\"https://example.com/x\">x</a></p>" "e@x.com" =
      "<p><a href=\"https://example.com/x#e@x.com\">x</a></p>" :=
  ⟨by decide,
   (c5_link_instrumentation "e@x.com" (by decide)).2.2.2
     "<p><a href=\"https://example.com/x\">x</a></p>",
   by rfl⟩

end MailManager
